import Mathlib

/-!
Verification development for `scripts/fetch_pulse_data.py`.

The pure computational core of the script is embedded shallowly:

* metric values are modelled as rationals (`ℚ`), exact stand-ins for the
  script's floats;
* Python's `round(x, n)` (banker's rounding, half to even) is modelled by
  `pyRound` on `ℚ` and by `pyRound1R` on `ℝ` (the z-score path goes through
  a real square root, `variance ** 0.5` in the source);
* Python dicts keyed by date strings are modelled as association lists with
  insertion-order semantics (`dictInsert`, `alookup`);
* Python string comparison of `YYYY-MM-DD` dates is code-point
  lexicographic; it is modelled by `strLe`/`strLt` on the underlying
  character lists;
* `datetime.strptime(_, "%Y-%m-%d")`, `timedelta.days` and
  `date.isocalendar()` are modelled by an explicit proleptic-Gregorian
  day-number conversion (`daysFromCivil` / `civilFromDays`) and the
  standard ISO-8601 week algorithm (`isoWeekOfCivil`);
* network fetching and file writing are out of scope (the spec excludes
  adapters and on-disk mechanics); functions receive the already-fetched
  series and return the data that would be written.
-/

namespace Pulse

/-! ## Banker's rounding (Python `round`) -/

/-- Round a rational to the nearest integer, ties to even
(the semantics of Python's builtin `round`). -/
def roundHalfEvenQ (x : ℚ) : ℤ :=
  let f : ℤ := ⌊x⌋
  let r : ℚ := x - (f : ℚ)
  if r < 1/2 then f
  else if 1/2 < r then f + 1
  else if 2 ∣ f then f else f + 1

/-- Python's `round(x, n)` on exact rationals. -/
def pyRound (x : ℚ) (n : ℕ) : ℚ :=
  (roundHalfEvenQ (x * (10 : ℚ) ^ n) : ℚ) / (10 : ℚ) ^ n

open Classical in
/-- Round a real to the nearest integer, ties to even. -/
noncomputable def roundHalfEvenR (x : ℝ) : ℤ :=
  if x - (⌊x⌋ : ℝ) < 1/2 then ⌊x⌋
  else if 1/2 < x - (⌊x⌋ : ℝ) then ⌊x⌋ + 1
  else if 2 ∣ ⌊x⌋ then ⌊x⌋ else ⌊x⌋ + 1

/-- Python's `round(x, 1)` on reals (used where the rounded value has
passed through a square root). -/
noncomputable def pyRound1R (x : ℝ) : ℝ :=
  (roundHalfEvenR (x * 10) : ℝ) / 10

/-! ## Calendar dates

`daysFromCivil`/`civilFromDays` convert between a proleptic Gregorian date
and a day count with epoch 1970-01-01 = 0 (Howard Hinnant's algorithm).
All uses in this development are for years ≥ 1, where every integer
division below has nonnegative operands, so the division convention is
immaterial. -/

def daysFromCivil (y m d : ℤ) : ℤ :=
  let y' : ℤ := if m ≤ 2 then y - 1 else y
  let era : ℤ := y' / 400
  let yoe : ℤ := y' - era * 400
  let mp : ℤ := (m + 9) % 12
  let doy : ℤ := (153 * mp + 2) / 5 + d - 1
  let doe : ℤ := yoe * 365 + yoe / 4 - yoe / 100 + doy
  era * 146097 + doe - 719468

def civilFromDays (z : ℤ) : ℤ × ℤ × ℤ :=
  let z' : ℤ := z + 719468
  let era : ℤ := z' / 146097
  let doe : ℤ := z' - era * 146097
  let yoe : ℤ := (doe - doe / 1460 + doe / 36524 - doe / 146096) / 365
  let y : ℤ := yoe + era * 400
  let doy : ℤ := doe - (365 * yoe + yoe / 4 - yoe / 100)
  let mp : ℤ := (5 * doy + 2) / 153
  let d : ℤ := doy - (153 * mp + 2) / 5 + 1
  let m : ℤ := mp + (if mp < 10 then 3 else -9)
  (if m ≤ 2 then y + 1 else y, m, d)

def digitVal (c : Char) : ℕ := c.toNat - 48

def natOfDigits (cs : List Char) : ℕ := cs.foldl (fun a c => 10 * a + digitVal c) 0

/-- Parse a zero-padded `YYYY-MM-DD` date string, the format this pipeline
reads and writes (the model of `datetime.strptime(_, "%Y-%m-%d")` on such
strings). -/
def parseDate (s : String) : ℤ × ℤ × ℤ :=
  let cs := s.toList
  ((natOfDigits (cs.take 4) : ℤ), (natOfDigits ((cs.drop 5).take 2) : ℤ),
    (natOfDigits ((cs.drop 8).take 2) : ℤ))

/-- Day number of a `YYYY-MM-DD` date string. -/
def dayNum (s : String) : ℤ :=
  let p := parseDate s
  daysFromCivil p.1 p.2.1 p.2.2

/-- The model of `abs((strptime(d1) - strptime(d2)).days)` from the
source's derived-metric alignment loop. -/
def dateDist (d1 d2 : String) : ℤ := |dayNum d1 - dayNum d2|

def pad2 (n : ℤ) : String := (if n < 10 then "0" else "") ++ toString n

/-- Format a day number back to `YYYY-MM-DD` (used to build concrete test
histories). -/
def formatDate (dn : ℤ) : String :=
  let c := civilFromDays dn
  toString c.1 ++ "-" ++ pad2 c.2.1 ++ "-" ++ pad2 c.2.2

/-- Weekday helper of the ISO week-date algorithm:
`(y + y/4 - y/100 + y/400) % 7`. -/
def pYear (y : ℤ) : ℤ := (y + y / 4 - y / 100 + y / 400) % 7

def isoWeeksInYear (y : ℤ) : ℤ :=
  if pYear y = 4 ∨ pYear (y - 1) = 3 then 53 else 52

/-- ISO weekday (Monday = 1 … Sunday = 7) of a day number
(1970-01-01 was a Thursday). -/
def isoWeekday (dn : ℤ) : ℤ := (dn + 3) % 7 + 1

/-- `(ISO year, ISO week)` of a civil date. -/
def isoWeekOfCivil (y m d : ℤ) : ℤ × ℤ :=
  let dn : ℤ := daysFromCivil y m d
  let wd : ℤ := isoWeekday dn
  let ordinal : ℤ := dn - daysFromCivil y 1 1 + 1
  let w : ℤ := (ordinal - wd + 10) / 7
  if w < 1 then (y - 1, isoWeeksInYear (y - 1))
  else if isoWeeksInYear y < w then (y + 1, 1)
  else (y, w)

/-- ISO week key of a date string: the model of
`datetime.strptime(date_str, "%Y-%m-%d").isocalendar()[:2]` (source line
620). -/
def weekKeyS (s : String) : ℤ × ℤ :=
  let p := parseDate s
  isoWeekOfCivil p.1 p.2.1 p.2.2

/-! ## Python string order (code-point lexicographic) -/

def lexLe : List Char → List Char → Bool
  | [], _ => true
  | _ :: _, [] => false
  | a :: as, b :: bs =>
    if a.toNat < b.toNat then true
    else if b.toNat < a.toNat then false
    else lexLe as bs

def lexLt : List Char → List Char → Bool
  | [], [] => false
  | [], _ :: _ => true
  | _ :: _, [] => false
  | a :: as, b :: bs =>
    if a.toNat < b.toNat then true
    else if b.toNat < a.toNat then false
    else lexLt as bs

/-- Python's `s1 <= s2` on strings. -/
def strLe (a b : String) : Bool := lexLe a.data b.data

/-- Python's `s1 < s2` on strings. -/
def strLt (a b : String) : Bool := lexLt a.data b.data

/-! ## Python dicts as association lists

`alookup` is `dict.get`; `dictInsert` is `dict[k] = v` (replace in place if
the key is present, else append), matching Python-dict insertion-order
semantics. -/

def alookup {α β : Type} [DecidableEq α] (k : α) : List (α × β) → Option β
  | [] => none
  | p :: ps => if p.1 = k then some p.2 else alookup k ps

def dictInsert {α β : Type} [DecidableEq α] (m : List (α × β)) (k : α) (v : β) :
    List (α × β) :=
  if (alookup k m).isSome then
    m.map (fun p => if p.1 = k then (k, v) else p)
  else m ++ [(k, v)]

/-! ## Sorting by date string (`sorted(..., key=lambda x: x[0])`) -/

def sortByDate (l : List (String × ℚ)) : List (String × ℚ) :=
  l.insertionSort (fun p q => strLe p.1 q.1 = true)

def sortStr (l : List String) : List String :=
  l.insertionSort (fun a b => strLe a b = true)

/-! ## `compute_ratio` (source lines 546-565)

The network fetch is the adapter boundary; the function is modelled on the
two already-fetched, date-ascending close series.  Pandas aligns the two
series on the intersection of their date indexes (in the first series'
order) and the loop emits `round(a/b, 4)` per common date. -/

def compute_ratio (a b : List (String × ℚ)) : List (String × ℚ) :=
  a.filterMap (fun p =>
    match alookup p.1 b with
    | some bv => some (p.1, pyRound (p.2 / bv) 4)
    | none => none)

/-! ## `compute_basket_ratio` (source lines 567-610) -/

/-- Dates common to the head series and every series in `rest`, in the head
series' index order (the model of the iterated
`common = common.intersection(...)` over sorted indexes). -/
def commonDates (s0 : List (String × ℚ)) (rest : List (List (String × ℚ))) :
    List String :=
  (s0.map Prod.fst).filter (fun d => rest.all (fun s => (alookup d s).isSome))

/-- Dict access `h[d]` (total with junk default, only used where the source
guarantees presence). -/
def getv (h : List (String × ℚ)) (d : String) : ℚ := (alookup d h).getD 0

/-- Equal-weight basket value at date `d`: mean over members of the price
normalized by the member's price on the anchor date. -/
def basketValue (basket : List (List (String × ℚ))) (anchor d : String) : ℚ :=
  (basket.map (fun s => getv s d / getv s anchor)).sum / (basket.length : ℚ)

def compute_basket_ratio (basketA basketB : List (List (String × ℚ))) :
    List (String × ℚ) :=
  match basketA ++ basketB with
  | [] => []
  | s0 :: rest =>
    if (basketA ++ basketB).any (fun s => s.isEmpty) then []
    else
      match commonDates s0 rest with
      | [] => []
      | anchor :: _ =>
        (commonDates s0 rest).map (fun d =>
          (d, pyRound (basketValue basketA anchor d / basketValue basketB anchor d) 4))

/-- A series rebased so that its value on `anchor` maps to 1.0
(`s / s.iloc[0]` in the source). -/
def normalizeAt (s : List (String × ℚ)) (anchor : String) : List (String × ℚ) :=
  s.map (fun p => (p.1, p.2 / getv s anchor))

/-! ## `downsample_weekly` (source lines 612-622) -/

def downsample_weekly (data : List (String × ℚ)) : List (String × ℚ) :=
  if data.length ≤ 260 then data
  else
    sortByDate ((data.foldl (fun m p => dictInsert m (weekKeyS p.1) p) []).map Prod.snd)

/-! ## `compute_ytd_change` (source lines 625-650) -/

inductive YtdOut where
  | bp (n : ℤ)
  | pct (q : ℚ)
deriving DecidableEq

def yearStartStr (year : ℤ) : String := toString year ++ "-01-01"

/-- The source's scan `for date_str, val in data: if date_str >= year_start:
start_val = val; break`. -/
def findStart (ys : String) : List (String × ℚ) → Option ℚ
  | [] => none
  | p :: ps => if strLe ys p.1 then some p.2 else findStart ys ps

def compute_ytd_change (data : List (String × ℚ)) (mode : String) (year : ℤ) :
    Option YtdOut :=
  match data with
  | [] => none
  | _ :: _ =>
    match findStart (yearStartStr year) data with
    | none => none
    | some sv =>
      if sv = 0 then none
      else
        let ev := (data.getLastD ("", 0)).2
        if mode = "bp" then some (.bp (roundHalfEvenQ ((ev - sv) * 100)))
        else some (.pct (pyRound ((ev - sv) / |sv| * 100) 1))

/-! ## `compute_zscore` (source lines 661-692) and `compute_trend`
(source lines 695-718) -/

def meanQ (vs : List ℚ) : ℚ := vs.sum / (vs.length : ℚ)

def varianceQ (vs : List ℚ) : ℚ :=
  ((vs.map (fun v => (v - meanQ vs) ^ 2)).sum) / (vs.length : ℚ)

/-- Population standard deviation, `variance ** 0.5` in the source. -/
noncomputable def stdR (vs : List ℚ) : ℝ := Real.sqrt ((varianceQ vs : ℚ) : ℝ)

inductive Signal where
  | NORMAL
  | ELEVATED
  | EXTREME
deriving DecidableEq

structure ZInfo where
  z : ℝ
  signal : Signal

open Classical in
/-- Signal label from the absolute rounded z-score (source lines 685-690). -/
noncomputable def classify (az : ℝ) : Signal :=
  if (5/2 : ℝ) ≤ az then .EXTREME
  else if (3/2 : ℝ) ≤ az then .ELEVATED
  else .NORMAL

/-- `round((values[-1] - mean) / std, 1)` (source line 682). -/
noncomputable def zscoreVal (vs : List ℚ) : ℝ :=
  pyRound1R ((((vs.getLastD 0 - meanQ vs : ℚ)) : ℝ) / stdR vs)

open Classical in
noncomputable def compute_zscore (history : List (String × ℚ)) : Option ZInfo :=
  if history.length < 4 then none
  else if stdR (history.map Prod.snd) = 0 then some ⟨0, .NORMAL⟩
  else
    some ⟨zscoreVal (history.map Prod.snd),
      classify |zscoreVal (history.map Prod.snd)|⟩

inductive Dir where
  | up
  | down
  | flat
deriving DecidableEq

def compute_trend (history : List (String × ℚ)) (lookback : ℕ) : Option Dir :=
  if history.length < lookback + 1 then none
  else
    let values := history.map Prod.snd
    let latest := values.getLastD 0
    let past := values.getD (values.length - (lookback + 1)) 0
    if past = 0 then some .flat
    else
      if 1/2 < (latest - past) / |past| * 100 then some .up
      else if (latest - past) / |past| * 100 < -(1/2) then some .down
      else some .flat

/-! ### Dynamic shape of history entries

`compute_zscore` dispatches on the runtime type of each history entry
(source line 673): `h[1] if isinstance(h, list) else h`.  A history point
is a two-element *list* `[date, value]` when it came through a JSON
round-trip (the persisted record schema, and the backfill path), but a
*tuple* `(date, value)` when freshly built by `fetch_yfinance`,
`fetch_fred`, `compute_ratio`, `compute_basket_ratio`, `apply_transform`,
the derived-metric loop, or `downsample_weekly`.  A tuple fails the
`isinstance(h, list)` test, so the tuple itself lands in `values`, and
`sum(values)` (line 675) raises `TypeError` (`0 + tuple`).  We model the
entry shape explicitly and thread the raise through `Except`. -/

inductive PyError where
  | typeError
deriving DecidableEq

/-- A history entry together with its Python runtime shape. -/
inductive HistEntry where
  | pylist (d : String) (v : ℚ)
  | pytuple (d : String) (v : ℚ)

/-- An element of `values` after line 673: a number (`h[1]`) for a
list-shaped entry, the whole tuple for a tuple-shaped one. -/
inductive PyVal where
  | num (q : ℚ)
  | tup (d : String) (v : ℚ)

/-- `h[1] if isinstance(h, list) else h` (source line 673). -/
def extractVal : HistEntry → PyVal
  | .pylist _ v => .num v
  | .pytuple d v => .tup d v

/-- Python `sum` with start `0` (source line 675): a left fold that adds
numbers and raises `TypeError` at the first tuple. -/
def pySum (acc : ℚ) : List PyVal → Except PyError ℚ
  | [] => .ok acc
  | .num q :: rest => pySum (acc + q) rest
  | .tup _ _ :: _ => .error .typeError

/-- The `(date, value)` data an entry carries, whatever its shape. -/
def entryPair : HistEntry → String × ℚ
  | .pylist d v => (d, v)
  | .pytuple d v => (d, v)

/-- `compute_zscore` (source lines 661-692) on shape-tagged entries: the
short-history guard (line 670) precedes the extraction; `sum(values)`
(line 675) raises on any tuple entry; when it succeeds every entry is
list-shaped and the remaining mean/std/z computation is the pure
`compute_zscore` on the carried pairs. -/
noncomputable def compute_zscore_py (history : List HistEntry) :
    Except PyError (Option ZInfo) :=
  if history.length < 4 then Except.ok none
  else
    Except.map (fun _ => compute_zscore (history.map entryPair))
      (pySum 0 (history.map extractVal))

/-- Freshly fetched points are tuples. -/
def asTuples (l : List (String × ℚ)) : List HistEntry :=
  l.map fun p => HistEntry.pytuple p.1 p.2

/-- JSON-loaded points are lists. -/
def asLists (l : List (String × ℚ)) : List HistEntry :=
  l.map fun p => HistEntry.pylist p.1 p.2

/-- The z-score annotation step of `main` (source lines 934-939) for a
freshly fetched metric: `mdata["history"]` is the weekly-downsampled
history built at lines 822 and 845, whose points are tuples. -/
noncomputable def annotate_zscore_fresh (full : List (String × ℚ)) :
    Except PyError (Option ZInfo) :=
  compute_zscore_py (asTuples (downsample_weekly full))

/-! ## Derived-metric alignment (source `main`, lines 882-903) -/

inductive DeriveOp where
  | subtract_bp
  | subtract
  | divide
deriving DecidableEq

/-- Per-point operator application (source lines 897-902).  The `divide`
arm is the source's final `else`: `round(a/b, 4) if b_val != 0 else 0`. -/
def applyOp : DeriveOp → ℚ → ℚ → ℚ
  | .subtract_bp, a, b => pyRound ((a - b) * 100) 1
  | .subtract, a, b => pyRound (a - b) 4
  | .divide, a, b => if b ≠ 0 then pyRound (a / b) 4 else 0

/-- `h.get(c, h.get(d))` from source lines 895-896 (with junk default on
the unreachable double miss). -/
def getv2 (h : List (String × ℚ)) (c d : String) : ℚ :=
  match alookup c h with
  | some v => v
  | none => getv h d

/-- The sparser of the two histories is the base (ties go to the first). -/
def baseHist (a b : List (String × ℚ)) : List (String × ℚ) :=
  if a.length ≤ b.length then a else b

def otherHist (a b : List (String × ℚ)) : List (String × ℚ) :=
  if a.length ≤ b.length then b else a

/-- Python's `min(xs, key=f)`: the first element attaining the minimum. -/
def minByFirst (f : String → ℤ) : List String → Option String
  | [] => none
  | x :: xs => some (xs.foldl (fun best y => if f y < f best then y else best) x)

/-- One iteration of the alignment loop for base date `d`: find the
closest date of the denser series, drop `d` if it is more than 7 days
away, else apply the operator to the aligned pair. -/
def alignPoint (a b : List (String × ℚ)) (op : DeriveOp) (d : String) :
    Option (String × ℚ) :=
  match minByFirst (fun dd => dateDist dd d) (sortStr ((otherHist a b).map Prod.fst)) with
  | none => none
  | some closest =>
    if 7 < dateDist closest d then none
    else
      let aval := if a.length ≤ b.length then getv a d else getv2 a closest d
      let bval := if a.length ≤ b.length then getv2 b closest d else getv b d
      some (d, applyOp op aval bval)

/-- The whole alignment loop `for d in sorted(base.keys())` of source
lines 888-903. -/
def alignDerive (a b : List (String × ℚ)) (op : DeriveOp) : List (String × ℚ) :=
  (sortStr ((baseHist a b).map Prod.fst)).filterMap (alignPoint a b op)

/-! ## Direction computation -/

def lastVal (h : List (String × ℚ)) : ℚ := (h.getLastD ("", 0)).2

def prevVal (h : List (String × ℚ)) : ℚ := (h.getD (h.length - 2) ("", 0)).2

/-- Direction in the fetch pipeline (source lines 827-831):
`"up" if history[-1][1] >= history[-2][1] else "down"`. -/
def direction_fetch (history : List (String × ℚ)) : Dir :=
  if 2 ≤ history.length then
    (if prevVal history ≤ lastVal history then .up else .down)
  else .flat

/-- Direction in the backfill path (source lines 1069-1076): strict
comparisons with a `flat` default. -/
def direction_backfill (history : List (String × ℚ)) : Dir :=
  if 2 ≤ history.length then
    (if prevVal history < lastVal history then .up
     else if lastVal history < prevVal history then .down
     else .flat)
  else .flat

/-! ## Metric registry (source lines 44-54 and 60-504; only the fields the
claims depend on — metric id, source type, category partition) -/

inductive SourceType where
  | yfinance
  | fred
  | derived
  | manual
deriving DecidableEq

def METRICS : List (String × SourceType) :=
  [("dxy", .yfinance), ("eurusd", .yfinance), ("usdcny", .yfinance),
   ("usd_reserves_share", .manual), ("us_10y", .yfinance),
   ("yield_curve", .fred), ("tips_5y", .fred), ("breakeven_10y", .fred),
   ("cn_10y", .manual), ("cn_us_spread", .derived), ("hy_spread", .fred),
   ("fed_balance_sheet", .fred), ("debt_to_gdp", .fred), ("tga", .fred),
   ("gold", .yfinance), ("silver", .yfinance), ("copper", .yfinance),
   ("uranium", .yfinance), ("oil", .yfinance), ("natgas", .yfinance),
   ("energy_cpi", .fred), ("sp500", .yfinance), ("qqq", .yfinance),
   ("smh", .yfinance), ("xlu", .yfinance), ("gsci_spy_ratio", .derived),
   ("vix", .yfinance), ("btc", .yfinance), ("cb_gold_buying", .manual),
   ("csi300", .yfinance), ("hsi", .yfinance), ("kweb", .yfinance),
   ("china_pmi", .manual), ("china_retail_sales", .manual),
   ("eem", .yfinance), ("inda", .yfinance), ("ilf", .yfinance),
   ("china_cpi", .manual), ("china_gdp", .manual), ("china_m2", .manual),
   ("move", .manual), ("us_ism_pmi", .manual), ("us_gdp", .fred),
   ("us_cpi", .fred), ("umich_sentiment", .fred),
   ("bigtech_capex", .manual), ("growth_value", .derived),
   ("cap_equal", .derived), ("atoms_bits", .derived)]

def CATEGORY_MAP : List (String × List String) :=
  [("currencies", ["dxy", "eurusd", "usdcny", "usd_reserves_share"]),
   ("rates", ["us_10y", "cn_10y", "cn_us_spread", "yield_curve", "tips_5y",
              "breakeven_10y", "hy_spread", "move"]),
   ("liquidity", ["fed_balance_sheet", "debt_to_gdp", "tga"]),
   ("china", ["csi300", "hsi", "kweb", "china_pmi", "china_retail_sales",
              "china_cpi", "china_gdp", "china_m2"]),
   ("metals", ["gold", "silver", "copper", "uranium"]),
   ("energy", ["oil", "natgas", "energy_cpi"]),
   ("equities", ["sp500", "qqq", "smh", "xlu", "gsci_spy_ratio",
                 "bigtech_capex", "growth_value", "cap_equal", "atoms_bits"]),
   ("sentiment", ["vix", "btc", "cb_gold_buying", "us_ism_pmi", "us_gdp",
                  "us_cpi", "umich_sentiment"]),
   ("row", ["eem", "inda", "ilf"])]

/-- `_category_for_metric` (source lines 973-978), generalized over the
category table so that each error branch is exercisable. -/
def _category_for_metric (catmap : List (String × List String))
    (metric_id : String) : Option String :=
  (catmap.find? (fun c => decide (metric_id ∈ c.2))).map Prod.fst

/-! ## Backfill merge (source lines 981-1124) -/

/-- The upsert-by-date merge of `backfill_from_csv` (source lines
1039-1064): sort the rows, fold them into the date-keyed dict built from
the persisted history (counting replaced and new dates), then rebuild the
history sorted ascending by date.  Returns
`(merged history, new count, replaced count)`. -/
def mergeStep (acc : List (String × ℚ) × ℕ × ℕ) (r : String × ℚ) :
    List (String × ℚ) × ℕ × ℕ :=
  (dictInsert acc.1 r.1 r.2,
    if (alookup r.1 acc.1).isSome then (acc.2.1, acc.2.2 + 1)
    else (acc.2.1 + 1, acc.2.2))

def mergeRows (history rows : List (String × ℚ)) :
    List (String × ℚ) × ℕ × ℕ :=
  let res := (sortByDate rows).foldl mergeStep (history, 0, 0)
  (sortByDate res.1, res.2.1, res.2.2)

inductive ConfigError where
  | unknownMetric (id : String)
  | notManual (id : String)
  | noCategory (id : String)
  | noValidRows (id : String)
deriving DecidableEq

/-- Every fatal configuration message of the source names the offending
metric id. -/
def offendingId : ConfigError → String
  | .unknownMetric i => i
  | .notManual i => i
  | .noCategory i => i
  | .noValidRows i => i

structure BackfillResult where
  category : String
  history : List (String × ℚ)
  newCount : ℕ
  replacedCount : ℕ
deriving DecidableEq

/-- `backfill_from_csv` (source lines 981-1124) with the registry and
category table as parameters and file I/O abstracted: `rows` are the
already-validated CSV rows and `persisted` is the stored history of the
metric read from its category file.  The source's guard order is kept:
unknown metric id, non-manual metric, metric missing from the category
table, empty valid-row set — each aborts (`sys.exit(1)`) before either
file write at lines 1106 and 1118. -/
def backfill_merge (metricsTable : List (String × SourceType))
    (catmap : List (String × List String)) (metric_id : String)
    (rows persisted : List (String × ℚ)) : Except ConfigError BackfillResult :=
  match alookup metric_id metricsTable with
  | none => .error (.unknownMetric metric_id)
  | some st =>
    if st ≠ .manual then .error (.notManual metric_id)
    else
      match _category_for_metric catmap metric_id with
      | none => .error (.noCategory metric_id)
      | some cat =>
        match rows with
        | [] => .error (.noValidRows metric_id)
        | _ :: _ =>
          let r := mergeRows persisted rows
          .ok ⟨cat, r.1, r.2.1, r.2.2⟩

def backfill_from_csv (metric_id : String) (rows persisted : List (String × ℚ)) :
    Except ConfigError BackfillResult :=
  backfill_merge METRICS CATEGORY_MAP metric_id rows persisted

/-- Number of output files written by one backfill invocation: the
category partition and the index (source lines 1106 and 1118) on success,
nothing when the invocation aborts. -/
def writesPerformed : Except ConfigError BackfillResult → ℕ
  | .error _ => 0
  | .ok _ => 2

/-! ## Order lemmas for the lexicographic string comparison -/

theorem char_toNat_inj {a b : Char} (h : a.toNat = b.toNat) : a = b :=
  Char.ext (UInt32.ext h)

theorem lexLe_refl : ∀ as, lexLe as as = true
  | [] => rfl
  | _ :: as => by simp [lexLe, lexLe_refl as]

theorem lexLe_total : ∀ as bs, lexLe as bs = true ∨ lexLe bs as = true
  | [], _ => Or.inl rfl
  | _ :: _, [] => Or.inr rfl
  | a :: as, b :: bs => by
    rcases Nat.lt_trichotomy a.toNat b.toNat with h | h | h
    · exact Or.inl (by simp [lexLe, h])
    · rcases lexLe_total as bs with ih | ih
      · exact Or.inl (by simp [lexLe, h, ih])
      · exact Or.inr (by simp [lexLe, h.symm, ih])
    · exact Or.inr (by simp [lexLe, h])

theorem lexLe_trans :
    ∀ as bs cs, lexLe as bs = true → lexLe bs cs = true → lexLe as cs = true
  | [], _, _, _, _ => rfl
  | _ :: _, [], _, h, _ => by simp [lexLe] at h
  | _ :: _, _ :: _, [], _, h => by simp [lexLe] at h
  | a :: as, b :: bs, c :: cs, h1, h2 => by
    simp only [lexLe] at h1 h2 ⊢
    rcases Nat.lt_trichotomy a.toNat b.toNat with hab | hab | hab
    · rcases Nat.lt_trichotomy b.toNat c.toNat with hbc | hbc | hbc
      · simp [show a.toNat < c.toNat by omega]
      · simp [show a.toNat < c.toNat by omega]
      · simp [show ¬ b.toNat < c.toNat by omega, hbc] at h2
    · rcases Nat.lt_trichotomy b.toNat c.toNat with hbc | hbc | hbc
      · simp [show a.toNat < c.toNat by omega]
      · simp only [hab, hbc, lt_self_iff_false, if_false] at h1 h2 ⊢
        exact lexLe_trans as bs cs h1 h2
      · simp [show ¬ b.toNat < c.toNat by omega, hbc] at h2
    · simp [show ¬ a.toNat < b.toNat by omega, hab] at h1

theorem lexLe_antisymm :
    ∀ as bs, lexLe as bs = true → lexLe bs as = true → as = bs
  | [], [], _, _ => rfl
  | [], _ :: _, _, h => by simp [lexLe] at h
  | _ :: _, [], h, _ => by simp [lexLe] at h
  | a :: as, b :: bs, h1, h2 => by
    simp only [lexLe] at h1 h2
    rcases Nat.lt_trichotomy a.toNat b.toNat with hab | hab | hab
    · simp [show ¬ b.toNat < a.toNat by omega, hab] at h2
    · have hhead : a = b := char_toNat_inj hab
      simp only [hab, lt_self_iff_false, if_false] at h1 h2
      exact by rw [hhead, lexLe_antisymm as bs h1 h2]
    · simp [show ¬ a.toNat < b.toNat by omega, hab] at h1

theorem lexLt_iff :
    ∀ as bs, lexLt as bs = true ↔ (lexLe as bs = true ∧ as ≠ bs)
  | [], [] => by simp [lexLt, lexLe]
  | [], _ :: _ => by simp [lexLt, lexLe]
  | _ :: _, [] => by simp [lexLt, lexLe]
  | a :: as, b :: bs => by
    simp only [lexLt, lexLe]
    rcases Nat.lt_trichotomy a.toNat b.toNat with hab | hab | hab
    · have : a ≠ b := fun h => by rw [h] at hab; omega
      simp [hab, this]
    · have hhead : a = b := char_toNat_inj hab
      simp only [hab, lt_self_iff_false, if_false, hhead]
      rw [lexLt_iff as bs]
      simp
    · simp [show ¬ a.toNat < b.toNat by omega, hab]

theorem string_data_inj {a b : String} (h : a.data = b.data) : a = b := by
  cases a
  cases b
  exact congrArg String.mk h

theorem strLe_refl (a : String) : strLe a a = true := lexLe_refl _

theorem strLe_total (a b : String) : strLe a b = true ∨ strLe b a = true :=
  lexLe_total _ _

theorem strLe_trans {a b c : String} (h1 : strLe a b = true)
    (h2 : strLe b c = true) : strLe a c = true :=
  lexLe_trans _ _ _ h1 h2

theorem strLe_antisymm {a b : String} (h1 : strLe a b = true)
    (h2 : strLe b a = true) : a = b :=
  string_data_inj (lexLe_antisymm _ _ h1 h2)

theorem strLt_iff (a b : String) :
    strLt a b = true ↔ (strLe a b = true ∧ a ≠ b) := by
  unfold strLt strLe
  rw [lexLt_iff]
  constructor
  · rintro ⟨h1, h2⟩
    exact ⟨h1, fun h => h2 (by rw [h])⟩
  · rintro ⟨h1, h2⟩
    exact ⟨h1, fun h => h2 (string_data_inj h)⟩

theorem strLt_trans {a b c : String} (h1 : strLt a b = true)
    (h2 : strLt b c = true) : strLt a c = true := by
  rw [strLt_iff] at h1 h2 ⊢
  refine ⟨strLe_trans h1.1 h2.1, fun h => ?_⟩
  subst h
  exact h2.2 (strLe_antisymm h2.1 h1.1)

instance : IsTotal (String × ℚ) (fun p q => strLe p.1 q.1 = true) :=
  ⟨fun p q => strLe_total p.1 q.1⟩

instance : IsTrans (String × ℚ) (fun p q => strLe p.1 q.1 = true) :=
  ⟨fun _ _ _ h h' => strLe_trans h h'⟩

instance : IsTotal String (fun a b => strLe a b = true) :=
  ⟨fun a b => strLe_total a b⟩

instance : IsTrans String (fun a b => strLe a b = true) :=
  ⟨fun _ _ _ h h' => strLe_trans h h'⟩

/-! ## Sort lemmas -/

theorem sortByDate_perm (l : List (String × ℚ)) : (sortByDate l).Perm l :=
  List.perm_insertionSort _ l

theorem sortByDate_sorted (l : List (String × ℚ)) :
    (sortByDate l).Sorted (fun p q => strLe p.1 q.1 = true) :=
  List.sorted_insertionSort _ l

theorem sortByDate_eq_of_sorted {l : List (String × ℚ)}
    (h : l.Sorted (fun p q => strLe p.1 q.1 = true)) : sortByDate l = l :=
  List.Sorted.insertionSort_eq h

theorem sortStr_perm (l : List String) : (sortStr l).Perm l :=
  List.perm_insertionSort _ l

theorem sortStr_sorted (l : List String) :
    (sortStr l).Sorted (fun a b => strLe a b = true) :=
  List.sorted_insertionSort _ l

/-! ## Dict lemmas -/

section Dict

variable {α β : Type} [DecidableEq α]

theorem alookup_isSome_iff {k : α} :
    ∀ {m : List (α × β)}, (alookup k m).isSome = true ↔ k ∈ m.map Prod.fst
  | [] => by simp [alookup]
  | p :: ps => by
    by_cases h : p.1 = k
    · simp [alookup, h]
    · simp only [alookup, if_neg h, List.map_cons, List.mem_cons]
      rw [alookup_isSome_iff]
      simp [Ne.symm h]

theorem alookup_eq_none_iff {k : α} {m : List (α × β)} :
    alookup k m = none ↔ k ∉ m.map Prod.fst := by
  rw [← alookup_isSome_iff]
  cases alookup k m <;> simp

theorem mem_of_alookup_eq_some {k : α} {v : β} :
    ∀ {m : List (α × β)}, alookup k m = some v → (k, v) ∈ m
  | [], h => by simp [alookup] at h
  | p :: ps, h => by
    by_cases hp : p.1 = k
    · simp only [alookup, if_pos hp] at h
      have hv : p.2 = v := by injection h
      have hkv : (k, v) = p := by rw [← hp, ← hv]
      rw [hkv]
      exact List.mem_cons_self _ _
    · simp only [alookup, if_neg hp] at h
      exact List.mem_cons_of_mem _ (mem_of_alookup_eq_some h)

theorem alookup_eq_some_of_mem {k : α} {v : β} :
    ∀ {m : List (α × β)}, (k, v) ∈ m → (m.map Prod.fst).Nodup →
      alookup k m = some v
  | [], h, _ => by simp at h
  | p :: ps, h, hn => by
    simp only [List.map_cons, List.nodup_cons] at hn
    rcases List.mem_cons.mp h with h | h
    · rw [← h]
      simp [alookup]
    · have hk : k ∈ ps.map Prod.fst :=
        List.mem_map.mpr ⟨(k, v), h, rfl⟩
      have hne : p.1 ≠ k := fun he => hn.1 (he ▸ hk)
      simp only [alookup, if_neg hne]
      exact alookup_eq_some_of_mem h hn.2

theorem keys_dictInsert_of_mem {m : List (α × β)} {k : α} (v : β)
    (h : (alookup k m).isSome = true) :
    (dictInsert m k v).map Prod.fst = m.map Prod.fst := by
  unfold dictInsert
  rw [if_pos h, List.map_map]
  refine List.map_congr_left (fun p _ => ?_)
  by_cases hp : p.1 = k
  · simp [hp]
  · simp [hp]

theorem keys_dictInsert_of_not_mem {m : List (α × β)} {k : α} (v : β)
    (h : ¬ (alookup k m).isSome = true) :
    (dictInsert m k v).map Prod.fst = m.map Prod.fst ++ [k] := by
  unfold dictInsert
  rw [if_neg h, List.map_append]
  rfl

theorem mem_keys_dictInsert {m : List (α × β)} {k k' : α} (v : β) :
    k' ∈ (dictInsert m k v).map Prod.fst ↔ k' ∈ m.map Prod.fst ∨ k' = k := by
  by_cases h : (alookup k m).isSome = true
  · rw [keys_dictInsert_of_mem v h]
    have hk : k ∈ m.map Prod.fst := alookup_isSome_iff.mp h
    constructor
    · exact fun hm => Or.inl hm
    · rintro (hm | rfl)
      · exact hm
      · exact hk
  · rw [keys_dictInsert_of_not_mem v h]
    simp

theorem nodupKeys_dictInsert {m : List (α × β)} {k : α} (v : β)
    (h : (m.map Prod.fst).Nodup) : ((dictInsert m k v).map Prod.fst).Nodup := by
  by_cases hs : (alookup k m).isSome = true
  · rw [keys_dictInsert_of_mem v hs]
    exact h
  · rw [keys_dictInsert_of_not_mem v hs]
    have hk : k ∉ m.map Prod.fst := fun hmem => hs (alookup_isSome_iff.mpr hmem)
    simp [List.nodup_append, h, hk]

theorem alookup_dictInsert_self (m : List (α × β)) (k : α) (v : β) :
    alookup k (dictInsert m k v) = some v := by
  unfold dictInsert
  by_cases h : (alookup k m).isSome = true
  · rw [if_pos h]
    induction m with
    | nil => simp [alookup] at h
    | cons p ps ih =>
      by_cases hp : p.1 = k
      · simp [alookup, hp]
      · simp only [alookup, if_neg hp] at h
        simpa [alookup, hp] using ih h
  · rw [if_neg h]
    induction m with
    | nil => simp [alookup]
    | cons p ps ih =>
      by_cases hp : p.1 = k
      · simp [alookup, hp] at h
      · simp only [alookup, if_neg hp] at h ⊢
        exact ih h

theorem alookup_dictInsert_ne (m : List (α × β)) {k k' : α} (v : β)
    (hne : k' ≠ k) : alookup k' (dictInsert m k v) = alookup k' m := by
  have hkk : k ≠ k' := Ne.symm hne
  unfold dictInsert
  by_cases h : (alookup k m).isSome = true
  · rw [if_pos h]
    clear h
    induction m with
    | nil => simp [alookup]
    | cons p ps ih =>
      by_cases hp : p.1 = k
      · have hp' : p.1 ≠ k' := by rw [hp]; exact hkk
        simp [alookup, hp, hp', hkk, ih]
      · by_cases hp' : p.1 = k'
        · simp [alookup, hp, hp', hne]
        · simp [alookup, hp, hp', ih]
  · rw [if_neg h]
    clear h
    induction m with
    | nil => simp [alookup, hkk]
    | cons p ps ih =>
      by_cases hp' : p.1 = k'
      · simp [alookup, hp']
      · simp [alookup, hp', ih]

end Dict

/-! ## Fold-into-dict characterization -/

section Fold

variable {α β γ : Type} [DecidableEq α]

/-- Last element of `l` whose key is `k` — the element a Python dict built
by a left-to-right fold stores for `k`. -/
def lastWith (keyf : γ → α) (l : List γ) (k : α) : Option γ :=
  (l.filter (fun x => keyf x = k)).getLast?

theorem lastWith_nil (keyf : γ → α) (k : α) : lastWith keyf [] k = none := rfl

theorem lastWith_cons (keyf : γ → α) (x : γ) (l : List γ) (k : α) :
    lastWith keyf (x :: l) k =
      if keyf x = k then some ((lastWith keyf l k).getD x)
      else lastWith keyf l k := by
  unfold lastWith
  rw [List.filter_cons]
  by_cases h : keyf x = k
  · simp [h, List.getLast?_cons]
  · simp [h]

theorem mem_of_lastWith_eq_some {keyf : γ → α} {l : List γ} {k : α} {x : γ}
    (h : lastWith keyf l k = some x) : x ∈ l ∧ keyf x = k := by
  unfold lastWith at h
  have hx := List.mem_of_mem_getLast? h
  have h1 := List.mem_of_mem_filter hx
  have h2 := List.of_mem_filter hx
  exact ⟨h1, by simpa using h2⟩

theorem alookup_foldl_dictInsert (keyf : γ → α) (valf : γ → β) :
    ∀ (l : List γ) (m : List (α × β)) (k : α),
      alookup k (l.foldl (fun acc x => dictInsert acc (keyf x) (valf x)) m) =
        (lastWith keyf l k).elim (alookup k m) (fun x => some (valf x))
  | [], m, k => by simp [lastWith]
  | x :: l, m, k => by
    rw [List.foldl_cons, alookup_foldl_dictInsert keyf valf l _ k,
      lastWith_cons]
    by_cases hx : keyf x = k
    · rw [if_pos hx]
      cases hfl : lastWith keyf l k with
      | none =>
        simp only [hfl, Option.elim_none, Option.elim_some, Option.getD_none]
        rw [← hx]
        exact alookup_dictInsert_self m (keyf x) (valf x)
      | some y => simp [hfl]
    · rw [if_neg hx]
      cases lastWith keyf l k with
      | none =>
        simp only [Option.elim_none]
        exact alookup_dictInsert_ne m (valf x) (fun he => hx he.symm)
      | some y => rfl

theorem foldl_dictInsert_all_present (keyf : γ → α) (valf : γ → β) :
    ∀ (l : List γ) (m : List (α × β)),
      (∀ x ∈ l, (alookup (keyf x) m).isSome = true) →
      l.foldl (fun acc x => dictInsert acc (keyf x) (valf x)) m =
        m.map (fun p => (p.1, (lastWith keyf l p.1).elim p.2 valf))
  | [], m, _ => by
    simp [lastWith_nil]
  | x :: l, m, hall => by
    have hx : (alookup (keyf x) m).isSome = true := hall x (.head l)
    have hall' : ∀ y ∈ l, (alookup (keyf y)
        (dictInsert m (keyf x) (valf x))).isSome = true := by
      intro y hy
      rw [alookup_isSome_iff, mem_keys_dictInsert]
      exact Or.inl (alookup_isSome_iff.mp (hall y (.tail x hy)))
    rw [List.foldl_cons, foldl_dictInsert_all_present keyf valf l _ hall']
    unfold dictInsert
    rw [if_pos hx, List.map_map]
    refine List.map_congr_left (fun p _ => ?_)
    simp only [Function.comp_apply]
    by_cases hp : p.1 = keyf x
    · simp only [if_pos hp]
      rw [lastWith_cons, if_pos hp.symm]
      rw [show lastWith keyf l p.1 = lastWith keyf l (keyf x) by rw [hp]]
      cases hfl : lastWith keyf l (keyf x) with
      | none => simp [hfl, hp]
      | some y => simp [hfl, hp]
    · simp only [if_neg hp]
      rw [lastWith_cons, if_neg (fun he => hp he.symm)]

end Fold

/-! ## Merge-fold bookkeeping lemmas -/

theorem mergeStep_eq (acc : List (String × ℚ) × ℕ × ℕ) (r : String × ℚ) :
    mergeStep acc r =
      (dictInsert acc.1 r.1 r.2,
        if (alookup r.1 acc.1).isSome then (acc.2.1, acc.2.2 + 1)
        else (acc.2.1 + 1, acc.2.2)) := rfl

theorem mergeFold_fst :
    ∀ (rows : List (String × ℚ)) (m : List (String × ℚ)) (n r : ℕ),
      (rows.foldl mergeStep (m, n, r)).1 =
        rows.foldl (fun acc x => dictInsert acc x.1 x.2) m
  | [], _, _, _ => rfl
  | x :: rows, m, n, r => by
    rw [List.foldl_cons, List.foldl_cons, mergeStep_eq]
    by_cases h : (alookup x.1 m).isSome = true <;>
      simp only [h, if_true, if_false, Bool.false_eq_true] <;>
      exact mergeFold_fst rows _ _ _

theorem mergeFold_counters :
    ∀ (rows : List (String × ℚ)) (m : List (String × ℚ)) (n r : ℕ),
      (∀ x ∈ rows, (alookup x.1 m).isSome = true) →
      (rows.foldl mergeStep (m, n, r)).2 = (n, r + rows.length)
  | [], _, _, _, _ => rfl
  | x :: rows, m, n, r, hall => by
    have hx : (alookup x.1 m).isSome = true := hall x (.head rows)
    have hstep : mergeStep (m, n, r) x = (dictInsert m x.1 x.2, n, r + 1) := by
      rw [mergeStep_eq]
      simp [hx]
    rw [List.foldl_cons, hstep]
    have hall' : ∀ y ∈ rows,
        (alookup y.1 (dictInsert m x.1 x.2)).isSome = true := by
      intro y hy
      rw [alookup_isSome_iff, mem_keys_dictInsert]
      exact Or.inl (alookup_isSome_iff.mp (hall y (.tail x hy)))
    rw [mergeFold_counters rows _ n (r + 1) hall']
    have harith : r + 1 + rows.length = r + (rows.length + 1) := by omega
    rw [harith]
    rfl

/-! ## Rounding evaluation helpers -/

theorem roundHalfEvenQ_intCast (n : ℤ) : roundHalfEvenQ (n : ℚ) = n := by
  unfold roundHalfEvenQ
  rw [Int.floor_intCast]
  norm_num

theorem pyRound_eq_of_mul_eq_intCast (m : ℤ) {x : ℚ} {n : ℕ}
    (h : x * (10 : ℚ) ^ n = (m : ℚ)) : pyRound x n = (m : ℚ) / (10 : ℚ) ^ n := by
  unfold pyRound
  rw [h, roundHalfEvenQ_intCast]

/-! ## Claim C10 -/

/-- C10: in the fetch pipeline (source lines 827-831) a history of at
least 2 points gets direction `up` exactly when the last value is at least
the second-to-last one — in particular equal consecutive values give `up`,
never `flat` — while the backfill path (source lines 1069-1076) gives
`flat` on equal last values. -/
theorem c10_direction_fetch_vs_backfill (h : List (String × ℚ))
    (hl : 2 ≤ h.length) :
    (direction_fetch h = .up ↔ prevVal h ≤ lastVal h) ∧
    direction_fetch h ≠ .flat ∧
    (prevVal h = lastVal h →
      direction_fetch h = .up ∧ direction_backfill h = .flat) := by
  unfold direction_fetch direction_backfill
  rw [if_pos hl, if_pos hl]
  by_cases hc : prevVal h ≤ lastVal h
  · rw [if_pos hc]
    refine ⟨⟨fun _ => hc, fun _ => rfl⟩, (by decide), fun he => ⟨rfl, ?_⟩⟩
    rw [he]
    simp
  · rw [if_neg hc]
    refine ⟨⟨fun hu => ?_, fun hle => absurd hle hc⟩, (by decide),
      fun he => absurd (le_of_eq he) hc⟩
    exact nomatch hu

/-- Witness for C10 at a concrete two-point history with equal values. -/
theorem c10_witness :
    (direction_fetch [("2024-01-01", 1), ("2024-02-01", 1)] = .up ↔
      prevVal [("2024-01-01", 1), ("2024-02-01", 1)] ≤
        lastVal [("2024-01-01", 1), ("2024-02-01", 1)]) ∧
    direction_fetch [("2024-01-01", 1), ("2024-02-01", 1)] ≠ .flat ∧
    (prevVal [("2024-01-01", 1), ("2024-02-01", 1)] =
        lastVal [("2024-01-01", 1), ("2024-02-01", 1)] →
      direction_fetch [("2024-01-01", 1), ("2024-02-01", 1)] = .up ∧
      direction_backfill [("2024-01-01", 1), ("2024-02-01", 1)] = .flat) :=
  c10_direction_fetch_vs_backfill [("2024-01-01", 1), ("2024-02-01", 1)]
    (by decide)

/-! ## Claim C9 -/

theorem alignPoint_map_fst_op_independent (a b : List (String × ℚ))
    (op op' : DeriveOp) (d : String) :
    (alignPoint a b op d).map Prod.fst = (alignPoint a b op' d).map Prod.fst := by
  unfold alignPoint
  cases minByFirst (fun dd => dateDist dd d) (sortStr ((otherHist a b).map Prod.fst)) with
  | none => rfl
  | some closest =>
    by_cases hd : 7 < dateDist closest d
    · simp [hd]
    · simp [hd]

/-- C9: in derived-metric evaluation (source lines 897-903) a zero aligned
denominator under the divide operator neither fails nor drops the date —
which dates survive alignment does not depend on the operator at all — and
the emitted value for such a date is 0. -/
theorem c9_divide_by_zero_yields_zero :
    (∀ a b : List (String × ℚ), ∀ op op' : DeriveOp,
      (alignDerive a b op).map Prod.fst = (alignDerive a b op').map Prod.fst) ∧
    (∀ x : ℚ, applyOp .divide x 0 = 0) ∧
    alignDerive [("2025-01-01", 3)] [("2025-01-01", 0)] .divide =
      [("2025-01-01", 0)] := by
  refine ⟨fun a b op op' => ?_, fun x => by simp [applyOp], by decide⟩
  unfold alignDerive
  rw [List.map_filterMap, List.map_filterMap]
  exact List.filterMap_congr
    (fun d _ => alignPoint_map_fst_op_independent a b op op' d)

/-! ## Claim C4 -/

/-- C4: a backfill invocation whose metric id is unknown, or names a
non-manual metric, or names a metric absent from the category table,
aborts with an error naming the offending id and performs no write
(source lines 990-1009 guard before the writes at lines 1106/1118).
Stated over an arbitrary registry and category table; the last conjunct
fixes the actual tables of the source. -/
theorem c4_backfill_aborts_before_write
    (metricsTable : List (String × SourceType))
    (catmap : List (String × List String)) (metric_id : String)
    (rows persisted : List (String × ℚ)) :
    (alookup metric_id metricsTable = none →
      backfill_merge metricsTable catmap metric_id rows persisted =
        .error (.unknownMetric metric_id)) ∧
    (∀ st, alookup metric_id metricsTable = some st → st ≠ .manual →
      backfill_merge metricsTable catmap metric_id rows persisted =
        .error (.notManual metric_id)) ∧
    (alookup metric_id metricsTable = some .manual →
      _category_for_metric catmap metric_id = none →
      backfill_merge metricsTable catmap metric_id rows persisted =
        .error (.noCategory metric_id)) ∧
    (∀ e, backfill_merge metricsTable catmap metric_id rows persisted =
        .error e →
      offendingId e = metric_id ∧
      writesPerformed
        (backfill_merge metricsTable catmap metric_id rows persisted) = 0) ∧
    backfill_from_csv metric_id rows persisted =
      backfill_merge METRICS CATEGORY_MAP metric_id rows persisted := by
  refine ⟨?_, ?_, ?_, ?_, rfl⟩
  · intro h
    simp only [backfill_merge, h]
  · intro st hst hne
    simp only [backfill_merge, hst, if_pos hne]
  · intro hst hcat
    simp only [backfill_merge, hst, hcat]
    rw [if_neg (fun hne => hne rfl)]
  · intro e he
    refine ⟨?_, (by rw [he]; rfl)⟩
    unfold backfill_merge at he
    split at he
    · cases he
      rfl
    · split at he
      · cases he
        rfl
      · split at he
        · cases he
          rfl
        · split at he
          · cases he
            rfl
          · cases he

/-- Witness for C4: the three abort conditions at concrete inputs —
an id unknown to the real registry, a real non-manual metric, and a
manual metric missing from a (toy) category table. -/
theorem c4_witness :
    backfill_merge METRICS CATEGORY_MAP "nope" [("2024-01-01", 1)] [] =
      .error (.unknownMetric "nope") ∧
    backfill_merge METRICS CATEGORY_MAP "dxy" [("2024-01-01", 1)] [] =
      .error (.notManual "dxy") ∧
    backfill_merge [("m1", .manual)] [] "m1" [("2024-01-01", 1)] [] =
      .error (.noCategory "m1") :=
  ⟨(c4_backfill_aborts_before_write METRICS CATEGORY_MAP "nope"
      [("2024-01-01", 1)] []).1 (by decide),
   (c4_backfill_aborts_before_write METRICS CATEGORY_MAP "dxy"
      [("2024-01-01", 1)] []).2.1 .yfinance (by decide) (by decide),
   (c4_backfill_aborts_before_write [("m1", .manual)] [] "m1"
      [("2024-01-01", 1)] []).2.2.1 (by decide) (by decide)⟩

/-! ## Claim C8 -/

theorem findStart_eq_find? (ys : String) :
    ∀ data : List (String × ℚ),
      findStart ys data = (data.find? (fun p => strLe ys p.1)).map Prod.snd
  | [] => rfl
  | p :: ps => by
    unfold findStart
    by_cases h : strLe ys p.1 = true
    · rw [if_pos h,
        @List.find?_cons_of_pos (String × ℚ) (fun q => strLe ys q.1) p ps h]
      rfl
    · rw [if_neg h,
        @List.find?_cons_of_neg (String × ℚ) (fun q => strLe ys q.1) p ps
          (by simpa using h)]
      exact findStart_eq_find? ys ps

/-- C8: year-to-date change (source lines 625-650) starts from the first
point whose date is on or after January 1 of the given year; when no such
point exists or its value is 0 nothing is emitted, otherwise `bp` mode
emits the integer `round((latest - start) * 100)` and any other mode the
percentage `round((latest - start)/|start| * 100, 1)`. -/
theorem c8_ytd_change_spec (data : List (String × ℚ)) (mode : String)
    (year : ℤ) (d : String) (v : ℚ) :
    compute_ytd_change [] mode year = none ∧
    (data ≠ [] →
      findStart (yearStartStr year) data =
        (data.find? (fun p => strLe (yearStartStr year) p.1)).map Prod.snd) ∧
    (data.find? (fun p => strLe (yearStartStr year) p.1) = none →
      compute_ytd_change data mode year = none) ∧
    (data.find? (fun p => strLe (yearStartStr year) p.1) = some (d, v) →
      v = 0 → compute_ytd_change data mode year = none) ∧
    (data.find? (fun p => strLe (yearStartStr year) p.1) = some (d, v) →
      v ≠ 0 →
      compute_ytd_change data mode year =
        (if mode = "bp" then
          some (.bp (roundHalfEvenQ ((lastVal data - v) * 100)))
        else some (.pct (pyRound ((lastVal data - v) / |v| * 100) 1)))) := by
  refine ⟨rfl, fun _ => findStart_eq_find? _ data, ?_, ?_, ?_⟩
  · intro hnone
    cases data with
    | nil => rfl
    | cons p ps =>
      simp only [compute_ytd_change, findStart_eq_find? (yearStartStr year)
        (p :: ps), hnone, Option.map_none']
  · intro hsome hv0
    cases data with
    | nil => simp at hsome
    | cons p ps =>
      simp only [compute_ytd_change, findStart_eq_find? (yearStartStr year)
        (p :: ps), hsome, Option.map_some']
      rw [if_pos hv0]
  · intro hsome hvne
    cases data with
    | nil => simp at hsome
    | cons p ps =>
      simp only [compute_ytd_change, findStart_eq_find? (yearStartStr year)
        (p :: ps), hsome, Option.map_some']
      rw [if_neg hvne]
      rfl

/-- Witness for C8: the spec's own example — history
`[("2024-01-01",100), ("2024-02-01",110)]` in percentage mode for 2024
yields `round((110-100)/|100|*100, 1)` = 10.0. -/
theorem c8_witness :
    compute_ytd_change [("2024-01-01", 100), ("2024-02-01", 110)] "pct" 2024 =
      some (.pct (pyRound ((lastVal [("2024-01-01", 100), ("2024-02-01", 110)] -
        100) / |(100 : ℚ)| * 100) 1)) ∧
    pyRound ((lastVal [("2024-01-01", 100), ("2024-02-01", 110)] - 100) /
      |(100 : ℚ)| * 100) 1 = 10 := by
  constructor
  · have h := (c8_ytd_change_spec
      [("2024-01-01", 100), ("2024-02-01", 110)] "pct" 2024
      "2024-01-01" 100).2.2.2.2 rfl (by decide)
    rw [h, if_neg (by decide)]
  · have hl : lastVal [("2024-01-01", 100), ("2024-02-01", 110)] = 110 := rfl
    rw [hl]
    rw [pyRound_eq_of_mul_eq_intCast 100 (by norm_num)]
    norm_num

/-! ## Claim C7 -/

theorem varianceQ_nonneg (vs : List ℚ) : 0 ≤ varianceQ vs := by
  unfold varianceQ
  apply div_nonneg
  · apply List.sum_nonneg
    intro x hx
    obtain ⟨v, _, rfl⟩ := List.mem_map.mp hx
    positivity
  · positivity

theorem stdR_eq_zero_iff (vs : List ℚ) : stdR vs = 0 ↔ varianceQ vs = 0 := by
  unfold stdR
  rw [Real.sqrt_eq_zero']
  constructor
  · intro hle
    have h0 : (0 : ℝ) ≤ ((varianceQ vs : ℚ) : ℝ) := by
      exact_mod_cast varianceQ_nonneg vs
    have h1 : ((varianceQ vs : ℚ) : ℝ) = 0 := le_antisymm hle h0
    exact_mod_cast h1
  · intro h
    rw [h]
    norm_num

theorem meanQ_replicate (n : ℕ) (c : ℚ) (hn : n ≠ 0) :
    meanQ (List.replicate n c) = c := by
  unfold meanQ
  rw [List.sum_replicate, List.length_replicate, nsmul_eq_mul, mul_comm,
    mul_div_assoc, div_self (Nat.cast_ne_zero.mpr hn), mul_one]

theorem varianceQ_replicate (n : ℕ) (c : ℚ) :
    varianceQ (List.replicate n c) = 0 := by
  cases n with
  | zero =>
    unfold varianceQ
    simp
  | succ m =>
    unfold varianceQ
    rw [meanQ_replicate (m + 1) c (Nat.succ_ne_zero m), List.map_replicate]
    simp

theorem list_sum_zero_of_nonneg :
    ∀ {l : List ℚ}, (∀ x ∈ l, 0 ≤ x) → l.sum = 0 → ∀ x ∈ l, x = 0
  | [], _, _, x, hx => by simp at hx
  | a :: l, hnn, hsum, x, hx => by
    rw [List.sum_cons] at hsum
    have ha : 0 ≤ a := hnn a (.head l)
    have hl : 0 ≤ l.sum := List.sum_nonneg (fun y hy => hnn y (.tail a hy))
    have ha0 : a = 0 := by linarith
    have hl0 : l.sum = 0 := by linarith
    rcases List.mem_cons.mp hx with rfl | hx
    · exact ha0
    · exact list_sum_zero_of_nonneg (fun y hy => hnn y (.tail a hy)) hl0 x hx

theorem varianceQ_ne_zero_of_mem_ne {vs : List ℚ} {u w : ℚ}
    (hu : u ∈ vs) (hw : w ∈ vs) (hne : u ≠ w) : varianceQ vs ≠ 0 := by
  intro h0
  unfold varianceQ at h0
  have hlen : vs.length ≠ 0 := by
    intro hl
    rw [List.length_eq_zero] at hl
    subst hl
    simp at hu
  have hlQ : ((vs.length : ℕ) : ℚ) ≠ 0 := Nat.cast_ne_zero.mpr hlen
  rw [div_eq_zero_iff] at h0
  rcases h0 with h0 | h0
  · have hnn : ∀ y ∈ vs.map (fun v => (v - meanQ vs) ^ 2), 0 ≤ y := by
      intro y hy
      obtain ⟨v, _, rfl⟩ := List.mem_map.mp hy
      positivity
    have hz := list_sum_zero_of_nonneg hnn h0
    have hu0 : (u - meanQ vs) ^ 2 = 0 :=
      hz _ (List.mem_map.mpr ⟨u, hu, rfl⟩)
    have hw0 : (w - meanQ vs) ^ 2 = 0 :=
      hz _ (List.mem_map.mpr ⟨w, hw, rfl⟩)
    have hu1 : u = meanQ vs := by
      have := (pow_eq_zero_iff two_ne_zero).mp hu0
      linarith [sub_eq_zero.mp this]
    have hw1 : w = meanQ vs := by
      have := (pow_eq_zero_iff two_ne_zero).mp hw0
      linarith [sub_eq_zero.mp this]
    exact hne (hu1.trans hw1.symm)
  · exact hlQ h0

theorem classify_iff (x : ℝ) :
    (classify x = .NORMAL ↔ x < 3/2) ∧
    (classify x = .ELEVATED ↔ 3/2 ≤ x ∧ x < 5/2) ∧
    (classify x = .EXTREME ↔ 5/2 ≤ x) := by
  unfold classify
  by_cases h1 : (5/2 : ℝ) ≤ x
  · rw [if_pos h1]
    refine ⟨⟨fun hs => ?_, fun hlt => absurd h1 (by linarith)⟩,
      ⟨fun hs => ?_, fun hc => absurd h1 (by rcases hc with ⟨_, h⟩; linarith)⟩,
      ⟨fun _ => h1, fun _ => rfl⟩⟩
    · exact nomatch hs
    · exact nomatch hs
  · rw [if_neg h1]
    by_cases h2 : (3/2 : ℝ) ≤ x
    · rw [if_pos h2]
      refine ⟨⟨fun hs => ?_, fun hlt => absurd h2 (by linarith)⟩,
        ⟨fun _ => ⟨h2, by linarith [not_le.mp h1]⟩, fun _ => rfl⟩,
        ⟨fun hs => ?_, fun hge => absurd hge h1⟩⟩
      · exact nomatch hs
      · exact nomatch hs
    · rw [if_neg h2]
      refine ⟨⟨fun _ => not_le.mp h2, fun _ => rfl⟩,
        ⟨fun hs => ?_, fun hc => absurd hc.1 h2⟩,
        ⟨fun hs => ?_, fun hge => absurd hge h1⟩⟩
      · exact nomatch hs
      · exact nomatch hs

/-- C7: the z-score pipeline (source lines 661-692): a history of fewer
than 4 points yields nothing; zero population standard deviation — which
happens exactly when the population variance is zero, e.g. on a constant
history — yields z = 0.0 with signal NORMAL; otherwise z is
`(latest - mean)/std` rounded to one decimal and the signal comes from the
thresholds |z| < 1.5 → NORMAL, 1.5 ≤ |z| < 2.5 → ELEVATED,
2.5 ≤ |z| → EXTREME. -/
theorem c7_zscore_spec (history : List (String × ℚ)) :
    (history.length < 4 → compute_zscore history = none) ∧
    (4 ≤ history.length →
      (varianceQ (history.map Prod.snd) = 0 →
        compute_zscore history = some ⟨0, .NORMAL⟩) ∧
      (varianceQ (history.map Prod.snd) ≠ 0 →
        compute_zscore history =
          some ⟨zscoreVal (history.map Prod.snd),
            classify |zscoreVal (history.map Prod.snd)|⟩)) ∧
    (stdR (history.map Prod.snd) = 0 ↔ varianceQ (history.map Prod.snd) = 0) ∧
    (zscoreVal (history.map Prod.snd) =
      pyRound1R ((((history.map Prod.snd).getLastD 0 -
        meanQ (history.map Prod.snd) : ℚ) : ℝ) / stdR (history.map Prod.snd))) ∧
    (∀ c : ℚ, history.map Prod.snd = List.replicate history.length c →
      varianceQ (history.map Prod.snd) = 0) ∧
    (∀ u w : ℚ, u ∈ history.map Prod.snd → w ∈ history.map Prod.snd →
      u ≠ w → varianceQ (history.map Prod.snd) ≠ 0) ∧
    (∀ x : ℝ, (classify x = .NORMAL ↔ x < 3/2) ∧
      (classify x = .ELEVATED ↔ 3/2 ≤ x ∧ x < 5/2) ∧
      (classify x = .EXTREME ↔ 5/2 ≤ x)) := by
  refine ⟨?_, ?_, stdR_eq_zero_iff _, rfl, ?_,
    fun u w hu hw hne => varianceQ_ne_zero_of_mem_ne hu hw hne, classify_iff⟩
  · intro h
    unfold compute_zscore
    rw [if_pos h]
  · intro h4
    constructor
    · intro hv
      unfold compute_zscore
      rw [if_neg (by omega), if_pos ((stdR_eq_zero_iff _).mpr hv)]
    · intro hv
      unfold compute_zscore
      rw [if_neg (by omega),
        if_neg (fun hs => hv ((stdR_eq_zero_iff _).mp hs))]
  · intro c hc
    rw [hc]
    exact varianceQ_replicate _ _

/-- Witness for C7: a 1-point history emits nothing; a constant 4-point
history gives z = 0.0, NORMAL; a non-constant 4-point history takes the
generic branch. -/
theorem c7_witness :
    compute_zscore [("2024-01-01", 1)] = none ∧
    compute_zscore [("2024-01-01", 2), ("2024-02-01", 2), ("2024-03-01", 2),
      ("2024-04-01", 2)] = some ⟨0, .NORMAL⟩ ∧
    compute_zscore [("2024-01-01", 1), ("2024-02-01", 1), ("2024-03-01", 3),
      ("2024-04-01", 3)] =
      some ⟨zscoreVal ([("2024-01-01", 1), ("2024-02-01", 1),
          ("2024-03-01", 3), ("2024-04-01", 3)].map Prod.snd),
        classify |zscoreVal ([("2024-01-01", 1), ("2024-02-01", 1),
          ("2024-03-01", 3), ("2024-04-01", 3)].map Prod.snd)|⟩ :=
  ⟨(c7_zscore_spec [("2024-01-01", 1)]).1 (by decide),
   ((c7_zscore_spec [("2024-01-01", 2), ("2024-02-01", 2), ("2024-03-01", 2),
        ("2024-04-01", 2)]).2.1 (by decide)).1
      ((c7_zscore_spec [("2024-01-01", 2), ("2024-02-01", 2), ("2024-03-01", 2),
        ("2024-04-01", 2)]).2.2.2.2.1 2 rfl),
   ((c7_zscore_spec [("2024-01-01", 1), ("2024-02-01", 1), ("2024-03-01", 3),
        ("2024-04-01", 3)]).2.1 (by decide)).2
      ((c7_zscore_spec [("2024-01-01", 1), ("2024-02-01", 1), ("2024-03-01", 3),
        ("2024-04-01", 3)]).2.2.2.2.2.1 1 3 (by simp) (by simp) (by decide))⟩

/-! ## Claim C2 -/

theorem alookup_map_value (f : ℚ → ℚ) (d : String) :
    ∀ s : List (String × ℚ),
      alookup d (s.map (fun p => (p.1, f p.2))) = (alookup d s).map f
  | [] => rfl
  | p :: ps => by
    by_cases h : p.1 = d
    · simp [alookup, h]
    · simp [alookup, h, alookup_map_value f d ps]

theorem basketValue_singleton (s : List (String × ℚ)) (anchor d : String) :
    basketValue [s] anchor d = getv s d / getv s anchor := by
  unfold basketValue
  simp

theorem map_filter_keys_eq_filterMap (l : List (String × ℚ))
    (P : String → Bool) (F : String → String × ℚ) :
    ((l.map Prod.fst).filter P).map F =
      l.filterMap (fun p => if P p.1 then some (F p.1) else none) := by
  induction l with
  | nil => rfl
  | cons p l ih =>
    simp only [List.map_cons, List.filter_cons, List.filterMap_cons]
    by_cases h : P p.1
    · simp only [h, if_true, List.map_cons, ih]
    · simp only [h, if_false, ih, Bool.false_eq_true]

theorem compute_basket_ratio_single_eq (a b : List (String × ℚ))
    (anchor : String) (ds : List String) (ha : a ≠ []) (hb : b ≠ [])
    (hcommon : commonDates a [b] = anchor :: ds) :
    compute_basket_ratio [a] [b] =
      (commonDates a [b]).map (fun d =>
        (d, pyRound (basketValue [a] anchor d / basketValue [b] anchor d) 4)) := by
  obtain ⟨p, as, rfl⟩ : ∃ p as, a = p :: as := by
    cases a with
    | nil => exact absurd rfl ha
    | cons p as => exact ⟨p, as, rfl⟩
  obtain ⟨q, bs, rfl⟩ : ∃ q bs, b = q :: bs := by
    cases b with
    | nil => exact absurd rfl hb
    | cons q bs => exact ⟨q, bs, rfl⟩
  show (match commonDates (p :: as) [q :: bs] with
    | [] => []
    | anchor :: _ => (commonDates (p :: as) [q :: bs]).map (fun d =>
        (d, pyRound (basketValue [p :: as] anchor d /
          basketValue [q :: bs] anchor d) 4))) = _
  rw [hcommon]

/-- C2 counterexample: with single-point series a = [("2025-01-02", 2)]
and b = [("2025-01-02", 4)], the basket ratio normalizes both series to
1.0 at the anchor and yields 1.0, while `ratio` yields
round(2/4, 4) = 0.5, so the two disagree. -/
theorem c2_counterexample :
    compute_basket_ratio [[("2025-01-02", 2)]] [[("2025-01-02", 4)]] ≠
      compute_ratio [("2025-01-02", 2)] [("2025-01-02", 4)] := by
  intro h
  have hcommon : commonDates [("2025-01-02", 2)] [[("2025-01-02", 4)]] =
      ["2025-01-02"] := rfl
  have hL : compute_basket_ratio [[("2025-01-02", 2)]] [[("2025-01-02", 4)]] =
      [("2025-01-02", pyRound (basketValue [[("2025-01-02", 2)]] "2025-01-02" "2025-01-02" /
        basketValue [[("2025-01-02", 4)]] "2025-01-02" "2025-01-02") 4)] := by
    rw [compute_basket_ratio_single_eq [("2025-01-02", 2)] [("2025-01-02", 4)]
      "2025-01-02" [] (by simp) (by simp) hcommon, hcommon]
    rfl
  have hbv : basketValue [[("2025-01-02", 2)]] "2025-01-02" "2025-01-02" /
      basketValue [[("2025-01-02", 4)]] "2025-01-02" "2025-01-02" = 1 := by
    rw [basketValue_singleton, basketValue_singleton]
    show ((2 : ℚ) / 2) / ((4 : ℚ) / 4) = 1
    norm_num
  have hL1 : compute_basket_ratio [[("2025-01-02", 2)]] [[("2025-01-02", 4)]] =
      [("2025-01-02", 1)] := by
    rw [hL, hbv, pyRound_eq_of_mul_eq_intCast 10000 (by norm_num)]
    norm_num
  have hR : compute_ratio [("2025-01-02", 2)] [("2025-01-02", 4)] =
      [("2025-01-02", pyRound ((2 : ℚ) / 4) 4)] := rfl
  have hR1 : compute_ratio [("2025-01-02", 2)] [("2025-01-02", 4)] =
      [("2025-01-02", 1/2)] := by
    rw [hR, pyRound_eq_of_mul_eq_intCast 5000 (by norm_num)]
    norm_num
  rw [hL1, hR1] at h
  injection h with hpair _
  injection hpair with _ hv
  norm_num at hv

/-- C2 amended: a single-ticker basket on each side reduces to `ratio`
applied to the anchor-normalized series — each series divided by its value
at the earliest common date — not to the raw series: at every common date
the basket value is round((a[d]/a[d0]) / (b[d]/b[d0]), 4). -/
theorem c2_amended (a b : List (String × ℚ)) (anchor : String)
    (ds : List String) (ha : a ≠ []) (hb : b ≠ [])
    (hnodup : (a.map Prod.fst).Nodup)
    (hcommon : commonDates a [b] = anchor :: ds) :
    compute_basket_ratio [a] [b] =
      compute_ratio (normalizeAt a anchor) (normalizeAt b anchor) := by
  rw [compute_basket_ratio_single_eq a b anchor ds ha hb hcommon]
  unfold commonDates
  rw [map_filter_keys_eq_filterMap]
  unfold compute_ratio normalizeAt
  rw [List.filterMap_map]
  refine List.filterMap_congr (fun p hp => ?_)
  simp only [Function.comp_apply]
  rw [alookup_map_value (fun v => v / getv b anchor) p.1 b]
  cases halk : alookup p.1 b with
  | none =>
    have hpred : ([b].all (fun s => (alookup p.1 s).isSome)) = false := by
      simp [halk]
    rw [hpred]
    rfl
  | some bv =>
    have hpred : ([b].all (fun s => (alookup p.1 s).isSome)) = true := by
      simp [halk]
    rw [hpred, if_pos rfl]
    simp only [Option.map_some']
    have hgb : getv b p.1 = bv := by
      unfold getv
      rw [halk]
      rfl
    have hga : getv a p.1 = p.2 := by
      unfold getv
      rw [alookup_eq_some_of_mem hp hnodup]
      rfl
    rw [basketValue_singleton, basketValue_singleton, hgb, hga]

/-- Witness for the amended C2 at the counterexample's input. -/
theorem c2_amended_witness :
    compute_basket_ratio [[("2025-01-02", 2)]] [[("2025-01-02", 4)]] =
      compute_ratio (normalizeAt [("2025-01-02", 2)] "2025-01-02")
        (normalizeAt [("2025-01-02", 4)] "2025-01-02") :=
  c2_amended [("2025-01-02", 2)] [("2025-01-02", 4)] "2025-01-02" []
    (by simp) (by simp) (by simp) rfl

/-! ## Claim C5 -/

theorem foldl_minBy_mem (f : String → ℤ) :
    ∀ (xs : List String) (a : String),
      xs.foldl (fun best y => if f y < f best then y else best) a = a ∨
      xs.foldl (fun best y => if f y < f best then y else best) a ∈ xs
  | [], _ => Or.inl rfl
  | x :: xs, a => by
    rw [List.foldl_cons]
    by_cases h : f x < f a
    · rw [if_pos h]
      rcases foldl_minBy_mem f xs x with h' | h'
      · exact Or.inr (by rw [h']; exact List.mem_cons_self x xs)
      · exact Or.inr (List.mem_cons_of_mem x h')
    · rw [if_neg h]
      rcases foldl_minBy_mem f xs a with h' | h'
      · exact Or.inl h'
      · exact Or.inr (List.mem_cons_of_mem x h')

theorem foldl_minBy_le (f : String → ℤ) :
    ∀ (xs : List String) (a : String),
      f (xs.foldl (fun best y => if f y < f best then y else best) a) ≤ f a ∧
      ∀ y ∈ xs,
        f (xs.foldl (fun best y => if f y < f best then y else best) a) ≤ f y
  | [], _ => ⟨le_refl _, fun y hy => absurd hy (List.not_mem_nil y)⟩
  | x :: xs, a => by
    rw [List.foldl_cons]
    by_cases h : f x < f a
    · rw [if_pos h]
      obtain ⟨h1, h2⟩ := foldl_minBy_le f xs x
      refine ⟨le_trans h1 (le_of_lt h), fun y hy => ?_⟩
      rcases List.mem_cons.mp hy with rfl | hy
      · exact h1
      · exact h2 y hy
    · rw [if_neg h]
      obtain ⟨h1, h2⟩ := foldl_minBy_le f xs a
      refine ⟨h1, fun y hy => ?_⟩
      rcases List.mem_cons.mp hy with rfl | hy
      · exact le_trans h1 (not_lt.mp h)
      · exact h2 y hy

theorem minByFirst_spec {f : String → ℤ} {l : List String} {c : String}
    (h : minByFirst f l = some c) : c ∈ l ∧ ∀ y ∈ l, f c ≤ f y := by
  cases l with
  | nil => exact absurd h (by simp [minByFirst])
  | cons x xs =>
    simp only [minByFirst] at h
    injection h with h
    subst h
    constructor
    · rcases foldl_minBy_mem f xs x with h' | h'
      · rw [h']
        exact List.mem_cons_self x xs
      · exact List.mem_cons_of_mem x h'
    · intro y hy
      rcases List.mem_cons.mp hy with h' | hy
      · rw [h']
        exact (foldl_minBy_le f xs x).1
      · exact (foldl_minBy_le f xs x).2 y hy

theorem minByFirst_isSome_of_ne_nil {f : String → ℤ} {l : List String}
    (h : l ≠ []) : (minByFirst f l).isSome = true := by
  cases l with
  | nil => exact absurd rfl h
  | cons x xs => rfl

/-- Structure of a point produced by the alignment loop: its date is a
base date, and the denser series has a date within 7 days that minimizes
the absolute day-distance. -/
theorem alignDerive_mem_spec {a b : List (String × ℚ)} {op : DeriveOp}
    {p : String × ℚ} (hp : p ∈ alignDerive a b op) :
    p.1 ∈ (baseHist a b).map Prod.fst ∧
    alignPoint a b op p.1 = some p ∧
    ∃ c, c ∈ (otherHist a b).map Prod.fst ∧
      (∀ c' ∈ (otherHist a b).map Prod.fst,
        dateDist c p.1 ≤ dateDist c' p.1) ∧
      dateDist c p.1 ≤ 7 := by
  unfold alignDerive at hp
  obtain ⟨d, hd, hpt⟩ := List.mem_filterMap.mp hp
  have hdbase : d ∈ (baseHist a b).map Prod.fst :=
    (sortStr_perm _).subset hd
  unfold alignPoint at hpt
  split at hpt
  · exact absurd hpt (by simp)
  · rename_i closest hmin
    split at hpt
    · exact absurd hpt (by simp)
    · rename_i hdist
      have hp1 : d = p.1 := by
        have h2 := congrArg (fun o => Option.map Prod.fst o) hpt
        simpa using h2
      rw [hp1] at hdbase hmin hdist hpt
      obtain ⟨hcm, hcmin⟩ := minByFirst_spec hmin
      refine ⟨hdbase, ?_, closest, (sortStr_perm _).subset hcm,
        fun c' hc' => hcmin c' ((sortStr_perm _).mem_iff.mpr hc'),
        not_lt.mp hdist⟩
      unfold alignPoint
      rw [hmin]
      exact (if_neg hdist).trans hpt

/-- C5: derived-metric alignment (source lines 882-903).  Concretely, with
cn_10y history [("2025-01-01", 2.0)] and us_10y history
[("2025-01-02", 4.5)] the subtract-bp spread at 2025-01-01 is
round((2.0-4.5)*100, 1) = -250.0, while a pair 19 days apart yields no
output point; in general every output point sits at a base (sparser
series) date whose nearest denser-series date by absolute day-distance is
at most 7 days away, and a base date whose every counterpart is more than
7 days away is dropped. -/
theorem c5_nearest_date_alignment (a b : List (String × ℚ)) (op : DeriveOp)
    (p : String × ℚ) (d : String) :
    alignDerive [("2025-01-01", 2)] [("2025-01-02", 9/2)] .subtract_bp =
      [("2025-01-01", -250)] ∧
    alignDerive [("2025-01-01", 2)] [("2025-01-20", 9/2)] .subtract_bp = [] ∧
    (p ∈ alignDerive a b op →
      p.1 ∈ (baseHist a b).map Prod.fst ∧
      alignPoint a b op p.1 = some p ∧
      ∃ c, c ∈ (otherHist a b).map Prod.fst ∧
        (∀ c' ∈ (otherHist a b).map Prod.fst,
          dateDist c p.1 ≤ dateDist c' p.1) ∧
        dateDist c p.1 ≤ 7) ∧
    (d ∈ (baseHist a b).map Prod.fst →
      (∀ c ∈ (otherHist a b).map Prod.fst, 7 < dateDist c d) →
      d ∉ (alignDerive a b op).map Prod.fst) := by
  refine ⟨?_, (by decide), fun hp => alignDerive_mem_spec hp, ?_⟩
  · have hbase : alignDerive [("2025-01-01", 2)] [("2025-01-02", 9/2)]
        .subtract_bp = [("2025-01-01", pyRound ((2 - 9/2) * 100) 1)] := rfl
    rw [hbase, pyRound_eq_of_mul_eq_intCast (-2500) (by norm_num)]
    norm_num
  · intro _ hall hmem
    obtain ⟨q, hq, hq1⟩ := List.mem_map.mp hmem
    obtain ⟨_, _, c, hcm, _, hcle⟩ := alignDerive_mem_spec hq
    rw [hq1] at hcle
    exact absurd hcle (not_le.mpr (hall c hcm))

/-- Witness for C5: the in-tolerance point is produced and characterized;
the out-of-tolerance date is dropped. -/
theorem c5_witness :
    (("2025-01-01", (-250 : ℚ)) ∈
        alignDerive [("2025-01-01", 2)] [("2025-01-02", 9/2)] .subtract_bp →
      ("2025-01-01", (-250 : ℚ)).1 ∈
        (baseHist [("2025-01-01", 2)] [("2025-01-02", 9/2)]).map Prod.fst ∧
      alignPoint [("2025-01-01", 2)] [("2025-01-02", 9/2)] .subtract_bp
          "2025-01-01" = some ("2025-01-01", (-250 : ℚ)) ∧
      ∃ c, c ∈ (otherHist [("2025-01-01", 2)] [("2025-01-02", 9/2)]).map Prod.fst ∧
        (∀ c' ∈ (otherHist [("2025-01-01", 2)] [("2025-01-02", 9/2)]).map Prod.fst,
          dateDist c "2025-01-01" ≤ dateDist c' "2025-01-01") ∧
        dateDist c "2025-01-01" ≤ 7) ∧
    "2025-01-01" ∉ (alignDerive [("2025-01-01", 2)] [("2025-01-20", 9/2)]
      .subtract_bp).map Prod.fst := by
  constructor
  · exact (c5_nearest_date_alignment [("2025-01-01", 2)] [("2025-01-02", 9/2)]
      .subtract_bp ("2025-01-01", -250) "2025-01-01").2.2.1
  · exact (c5_nearest_date_alignment [("2025-01-01", 2)] [("2025-01-20", 9/2)]
      .subtract_bp ("2025-01-01", -250) "2025-01-01").2.2.2 (by decide)
      (by decide)

/-! ## Claim C3 -/

theorem nodupKeys_foldl_dictInsert {α β γ : Type} [DecidableEq α]
    (keyf : γ → α) (valf : γ → β) :
    ∀ (l : List γ) (m : List (α × β)), (m.map Prod.fst).Nodup →
      ((l.foldl (fun acc x => dictInsert acc (keyf x) (valf x)) m).map
        Prod.fst).Nodup
  | [], _, h => h
  | x :: l, m, h => by
    rw [List.foldl_cons]
    exact nodupKeys_foldl_dictInsert keyf valf l _ (nodupKeys_dictInsert _ h)

theorem lastWith_isSome_of_mem {α γ : Type} [DecidableEq α]
    (keyf : γ → α) {l : List γ} {x : γ} (hx : x ∈ l) :
    (lastWith keyf l (keyf x)).isSome = true := by
  unfold lastWith
  rw [Option.isSome_iff_ne_none, Ne, List.getLast?_eq_none_iff]
  intro hemp
  have hxf : x ∈ l.filter (fun y => keyf y = keyf x) :=
    List.mem_filter.mpr ⟨hx, by simp⟩
  rw [hemp] at hxf
  exact absurd hxf (List.not_mem_nil x)

theorem alookup_perm {α β : Type} [DecidableEq α] {m m' : List (α × β)}
    (hperm : m.Perm m') (hnodup : (m.map Prod.fst).Nodup) (k : α) :
    alookup k m = alookup k m' := by
  have hnodup' : (m'.map Prod.fst).Nodup :=
    ((hperm.map Prod.fst).nodup_iff).mp hnodup
  cases halk : alookup k m with
  | none =>
    symm
    rw [alookup_eq_none_iff] at halk ⊢
    intro hk
    exact halk (((hperm.map Prod.fst).mem_iff).mpr hk)
  | some v =>
    symm
    exact alookup_eq_some_of_mem
      (hperm.subset (mem_of_alookup_eq_some halk)) hnodup'

theorem mergeRows_fst (history rows : List (String × ℚ)) :
    (mergeRows history rows).1 =
      sortByDate ((sortByDate rows).foldl
        (fun acc x => dictInsert acc x.1 x.2) history) := by
  show sortByDate ((sortByDate rows).foldl mergeStep (history, 0, 0)).1 = _
  rw [mergeFold_fst]

theorem mergeRows_counters (history rows : List (String × ℚ))
    (hall : ∀ x ∈ sortByDate rows, (alookup x.1 history).isSome = true) :
    (mergeRows history rows).2 = (0, rows.length) := by
  show ((sortByDate rows).foldl mergeStep (history, 0, 0)).2 = _
  rw [mergeFold_counters (sortByDate rows) history 0 0 hall,
    (sortByDate_perm rows).length_eq, Nat.zero_add]

/-- C3: applying the backfill upsert merge (source lines 1039-1064) of one
row set twice to the same starting history yields the same final history
both times, and on the second application the new-rows counter is 0 while
every row is counted as replaced. -/
theorem c3_merge_idempotent (history rows : List (String × ℚ))
    (hnodup : (history.map Prod.fst).Nodup) :
    (mergeRows (mergeRows history rows).1 rows).1 =
      (mergeRows history rows).1 ∧
    (mergeRows (mergeRows history rows).1 rows).2.1 = 0 ∧
    (mergeRows (mergeRows history rows).1 rows).2.2 = rows.length := by
  have hm1 : (mergeRows history rows).1 =
      sortByDate ((sortByDate rows).foldl
        (fun acc x => dictInsert acc x.1 x.2) history) := mergeRows_fst _ _
  have hnodupF : ((((sortByDate rows).foldl
      (fun acc x => dictInsert acc x.1 x.2) history)).map Prod.fst).Nodup :=
    nodupKeys_foldl_dictInsert Prod.fst Prod.snd _ _ hnodup
  have hperm1 : ((mergeRows history rows).1).Perm
      ((sortByDate rows).foldl (fun acc x => dictInsert acc x.1 x.2) history) := by
    rw [hm1]
    exact sortByDate_perm _
  have hnodup1 : (((mergeRows history rows).1).map Prod.fst).Nodup :=
    ((hperm1.map Prod.fst).nodup_iff).mpr hnodupF
  have hlook1 : ∀ k, alookup k ((mergeRows history rows).1) =
      alookup k ((sortByDate rows).foldl
        (fun acc x => dictInsert acc x.1 x.2) history) :=
    fun k => alookup_perm hperm1 hnodup1 k
  have hall : ∀ x ∈ sortByDate rows,
      (alookup x.1 ((mergeRows history rows).1)).isSome = true := by
    intro x hx
    rw [hlook1 x.1,
      alookup_foldl_dictInsert Prod.fst Prod.snd (sortByDate rows) history x.1]
    obtain ⟨r, hr⟩ := Option.isSome_iff_exists.mp
      (lastWith_isSome_of_mem Prod.fst hx)
    rw [hr]
    rfl
  refine ⟨?_, ?_, ?_⟩
  · rw [mergeRows_fst ((mergeRows history rows).1) rows,
      foldl_dictInsert_all_present Prod.fst Prod.snd (sortByDate rows)
        ((mergeRows history rows).1) hall]
    have hmapid : ((mergeRows history rows).1).map
        (fun p => (p.1, (lastWith Prod.fst (sortByDate rows) p.1).elim p.2
          Prod.snd)) = (mergeRows history rows).1 := by
      have hpt : ∀ p ∈ (mergeRows history rows).1,
          (p.1, (lastWith Prod.fst (sortByDate rows) p.1).elim p.2
            Prod.snd) = p := by
        intro p hp
        cases hlw : lastWith Prod.fst (sortByDate rows) p.1 with
        | none => rfl
        | some r =>
          have h2 : alookup p.1 ((mergeRows history rows).1) = some r.2 := by
            rw [hlook1 p.1, alookup_foldl_dictInsert Prod.fst Prod.snd
              (sortByDate rows) history p.1, hlw]
            rfl
          have h3 : alookup p.1 ((mergeRows history rows).1) = some p.2 :=
            alookup_eq_some_of_mem hp hnodup1
          have hval : r.2 = p.2 := by
            rw [h2] at h3
            injection h3
          simp only [Option.elim_some, hval]
      rw [List.map_congr_left hpt]
      exact List.map_id _
    rw [hmapid]
    have hsorted1 : ((mergeRows history rows).1).Sorted
        (fun p q => strLe p.1 q.1 = true) := by
      rw [hm1]
      exact sortByDate_sorted _
    exact sortByDate_eq_of_sorted hsorted1
  · rw [mergeRows_counters ((mergeRows history rows).1) rows hall]
  · rw [mergeRows_counters ((mergeRows history rows).1) rows hall]

/-- Witness for C3 at a concrete persisted history and row set. -/
theorem c3_witness :
    (mergeRows (mergeRows [("2024-01-31", 50)] [("2024-01-31", 51), ("2024-02-29", 52)]).1
        [("2024-01-31", 51), ("2024-02-29", 52)]).1 =
      (mergeRows [("2024-01-31", 50)] [("2024-01-31", 51), ("2024-02-29", 52)]).1 ∧
    (mergeRows (mergeRows [("2024-01-31", 50)] [("2024-01-31", 51), ("2024-02-29", 52)]).1
        [("2024-01-31", 51), ("2024-02-29", 52)]).2.1 = 0 ∧
    (mergeRows (mergeRows [("2024-01-31", 50)] [("2024-01-31", 51), ("2024-02-29", 52)]).1
        [("2024-01-31", 51), ("2024-02-29", 52)]).2.2 =
      [("2024-01-31", (51 : ℚ)), ("2024-02-29", 52)].length :=
  c3_merge_idempotent [("2024-01-31", 50)] [("2024-01-31", 51), ("2024-02-29", 52)]
    (by decide)

/-! ## Claim C6 -/

theorem option_elim_none_some {α : Type} (o : Option α) :
    o.elim none some = o := by
  cases o <;> rfl

theorem lastWith_concat {α γ : Type} [DecidableEq α] (keyf : γ → α)
    (l : List γ) (x : γ) : lastWith keyf (l ++ [x]) (keyf x) = some x := by
  unfold lastWith
  rw [List.filter_append]
  simp only [List.filter_cons, List.filter_nil, decide_True, if_true]
  rw [List.getLast?_concat]

theorem lastWith_getLast {α γ : Type} [DecidableEq α] (keyf : γ → α)
    {l : List γ} (hne : l ≠ []) :
    lastWith keyf l (keyf (l.getLast hne)) = some (l.getLast hne) := by
  have h1 : l.dropLast ++ [l.getLast hne] = l := List.dropLast_append_getLast hne
  calc lastWith keyf l (keyf (l.getLast hne))
      = lastWith keyf (l.dropLast ++ [l.getLast hne]) (keyf (l.getLast hne)) := by
        rw [h1]
    _ = some (l.getLast hne) := lastWith_concat keyf l.dropLast (l.getLast hne)

theorem pairwise_getLast {α : Type} {R : α → α → Prop} :
    ∀ {l : List α}, l.Pairwise R → (hne : l ≠ []) →
      ∀ x ∈ l, x = l.getLast hne ∨ R x (l.getLast hne)
  | [], _, hne, _, _ => absurd rfl hne
  | [a], _, _, x, hx => by
    rw [List.mem_singleton] at hx
    exact Or.inl (by rw [hx]; rfl)
  | a :: b :: l, hp, _, x, hx => by
    rw [List.getLast_cons (List.cons_ne_nil b l)]
    rcases List.mem_cons.mp hx with rfl | hx
    · exact Or.inr ((List.pairwise_cons.mp hp).1 _
        (List.getLast_mem (List.cons_ne_nil b l)))
    · exact pairwise_getLast (List.pairwise_cons.mp hp).2
        (List.cons_ne_nil b l) x hx

/-- C6: `downsample_weekly` (source lines 612-622) is the identity on
histories of at most 260 points; on a longer, strictly date-ascending
history the output keeps exactly one point per ISO week — the last point
of that week — covers every week present in the input, is sorted strictly
ascending by date, ends in the input's last point, and has at most as many
points as there are distinct ISO weeks in the input. -/
theorem c6_downsample_spec (data : List (String × ℚ)) :
    (data.length ≤ 260 → downsample_weekly data = data) ∧
    (260 < data.length →
      data.Pairwise (fun p q => strLt p.1 q.1 = true) →
      (∀ p ∈ downsample_weekly data,
        p ∈ data ∧
        lastWith (fun q : String × ℚ => weekKeyS q.1) data (weekKeyS p.1) =
          some p) ∧
      (∀ q ∈ data, ∃ p ∈ downsample_weekly data,
        weekKeyS p.1 = weekKeyS q.1) ∧
      (downsample_weekly data).Pairwise
        (fun p q => weekKeyS p.1 ≠ weekKeyS q.1) ∧
      (downsample_weekly data).Pairwise (fun p q => strLt p.1 q.1 = true) ∧
      (downsample_weekly data).getLast? = data.getLast? ∧
      (downsample_weekly data).length ≤
        ((data.map (fun p => weekKeyS p.1)).dedup).length) := by
  constructor
  · intro hle
    unfold downsample_weekly
    rw [if_pos hle]
  · intro hlen hasc
    have hnodupDates : (data.map Prod.fst).Nodup := by
      show (data.map Prod.fst).Pairwise (fun a b => a ≠ b)
      rw [List.pairwise_map]
      exact hasc.imp (fun hlt => ((strLt_iff _ _).mp hlt).2)
    have hinj : ∀ p ∈ data, ∀ q ∈ data, p.1 = q.1 → p = q :=
      List.inj_on_of_nodup_map hnodupDates
    have hds : downsample_weekly data =
        sortByDate ((data.foldl
          (fun m p => dictInsert m (weekKeyS p.1) p) []).map Prod.snd) := by
      unfold downsample_weekly
      rw [if_neg (by omega)]
    have hlook : ∀ k, alookup k
        (data.foldl (fun m p => dictInsert m (weekKeyS p.1) p) []) =
        lastWith (fun q : String × ℚ => weekKeyS q.1) data k := by
      intro k
      rw [alookup_foldl_dictInsert (fun q : String × ℚ => weekKeyS q.1)
        (fun q : String × ℚ => q) data [] k]
      cases lastWith (fun q : String × ℚ => weekKeyS q.1) data k <;> rfl
    have hnodupKeys : (((data.foldl
        (fun m p => dictInsert m (weekKeyS p.1) p) []).map Prod.fst)).Nodup := by
      have := nodupKeys_foldl_dictInsert (fun q : String × ℚ => weekKeyS q.1)
        (fun q : String × ℚ => q) data ([] : List ((ℤ × ℤ) × (String × ℚ)))
        (by simp)
      exact this
    have hmemdict : ∀ k (v : String × ℚ),
        (k, v) ∈ data.foldl (fun m p => dictInsert m (weekKeyS p.1) p) [] ↔
        lastWith (fun q : String × ℚ => weekKeyS q.1) data k = some v := by
      intro k v
      constructor
      · intro hm
        rw [← hlook k]
        exact alookup_eq_some_of_mem hm hnodupKeys
      · intro hl
        exact mem_of_alookup_eq_some ((hlook k).trans hl)
    have hkeychar : ∀ e ∈ data.foldl
        (fun m p => dictInsert m (weekKeyS p.1) p) [],
        weekKeyS e.2.1 = e.1 ∧ e.2 ∈ data := by
      intro e he
      have hl : lastWith (fun q : String × ℚ => weekKeyS q.1) data e.1 =
          some e.2 := (hmemdict e.1 e.2).mp (by
        have : (e.1, e.2) = e := rfl
        rw [this]
        exact he)
      obtain ⟨hmem, hkey⟩ := mem_of_lastWith_eq_some hl
      exact ⟨hkey, hmem⟩
    have hperm : (downsample_weekly data).Perm
        ((data.foldl (fun m p => dictInsert m (weekKeyS p.1) p) []).map
          Prod.snd) := by
      rw [hds]
      exact sortByDate_perm _
    -- part (a1): membership characterization
    have ha1 : ∀ p ∈ downsample_weekly data,
        p ∈ data ∧
        lastWith (fun q : String × ℚ => weekKeyS q.1) data (weekKeyS p.1) =
          some p := by
      intro p hp
      have hpv : p ∈ (data.foldl
          (fun m p => dictInsert m (weekKeyS p.1) p) []).map Prod.snd :=
        hperm.subset hp
      obtain ⟨e, he, hev⟩ := List.mem_map.mp hpv
      obtain ⟨hkey, hmem⟩ := hkeychar e he
      rw [hev] at hkey
      have he' : (e.1, p) ∈ data.foldl
          (fun m p => dictInsert m (weekKeyS p.1) p) [] := by
        have : (e.1, p) = e := by
          rw [← hev]
        rw [this]
        exact he
      refine ⟨hev ▸ hmem, ?_⟩
      rw [hkey]
      exact (hmemdict e.1 p).mp he'
    -- part (a2): coverage
    have ha2 : ∀ q ∈ data, ∃ p ∈ downsample_weekly data,
        weekKeyS p.1 = weekKeyS q.1 := by
      intro q hq
      obtain ⟨r, hr⟩ := Option.isSome_iff_exists.mp
        (lastWith_isSome_of_mem (fun x : String × ℚ => weekKeyS x.1) hq)
      have hrd : (weekKeyS q.1, r) ∈ data.foldl
          (fun m p => dictInsert m (weekKeyS p.1) p) [] :=
        (hmemdict _ r).mpr hr
      have hrkey : weekKeyS r.1 = weekKeyS q.1 := (hkeychar _ hrd).1
      refine ⟨r, ?_, hrkey⟩
      apply hperm.mem_iff.mpr
      exact List.mem_map.mpr ⟨(weekKeyS q.1, r), hrd, rfl⟩
    -- values list is nodup, and its week keys are pairwise distinct
    have hdictnodup : (data.foldl
        (fun m p => dictInsert m (weekKeyS p.1) p) []).Nodup :=
      List.Nodup.of_map Prod.fst hnodupKeys
    have hvalues_nodup : ((data.foldl
        (fun m p => dictInsert m (weekKeyS p.1) p) []).map Prod.snd).Nodup := by
      apply List.Nodup.map_on ?_ hdictnodup
      intro e he e' he' hsnd
      have h1 := (hkeychar e he).1
      have h2 := (hkeychar e' he').1
      have hk : e.1 = e'.1 := by
        rw [← h1, ← h2, hsnd]
      have he2 : e = (e.1, e.2) := rfl
      have he2' : e' = (e'.1, e'.2) := rfl
      rw [he2, he2', hk, hsnd]
    -- pairwise distinct week keys on the output
    have hvalues_keys : ∀ x ∈ (data.foldl
        (fun m p => dictInsert m (weekKeyS p.1) p) []).map Prod.snd,
        x ∈ data := by
      intro x hx
      obtain ⟨e, he, hev⟩ := List.mem_map.mp hx
      exact hev ▸ (hkeychar e he).2
    have ha3 : (downsample_weekly data).Pairwise
        (fun p q => weekKeyS p.1 ≠ weekKeyS q.1) := by
      rw [List.Perm.pairwise_iff (fun hxy he => hxy he.symm) hperm]
      rw [List.pairwise_map]
      have hkeysne : (data.foldl
          (fun m p => dictInsert m (weekKeyS p.1) p) []).Pairwise
          (fun e e' => e.1 ≠ e'.1) := by
        have := hnodupKeys
        rw [List.Nodup, List.pairwise_map] at this
        exact this
      refine List.Pairwise.imp_of_mem ?_ hkeysne
      intro e e' he he' hne
      rw [(hkeychar e he).1, (hkeychar e' he').1]
      exact hne
    -- strict date sortedness of the output
    have hsortedle : (downsample_weekly data).Pairwise
        (fun p q => strLe p.1 q.1 = true) := by
      rw [hds]
      exact sortByDate_sorted _
    have houtdatesnodup : ((downsample_weekly data).map Prod.fst).Nodup := by
      apply ((hperm.map Prod.fst).nodup_iff).mpr
      apply List.Nodup.map_on ?_ hvalues_nodup
      intro x hx y hy hxy
      exact hinj x (hvalues_keys x hx) y (hvalues_keys y hy) hxy
    have houtdatesne : (downsample_weekly data).Pairwise
        (fun p q => p.1 ≠ q.1) := by
      have := houtdatesnodup
      rw [List.Nodup, List.pairwise_map] at this
      exact this
    have ha4 : (downsample_weekly data).Pairwise
        (fun p q => strLt p.1 q.1 = true) := by
      refine (hsortedle.and houtdatesne).imp ?_
      intro p q hpq
      exact (strLt_iff _ _).mpr ⟨hpq.1, hpq.2⟩
    -- the last input point is the last output point
    have hne : data ≠ [] := by
      intro h
      rw [h] at hlen
      simp at hlen
    have houtmem : ∀ p ∈ downsample_weekly data, p ∈ data :=
      fun p hp => (ha1 p hp).1
    have hlastmem : data.getLast hne ∈ downsample_weekly data := by
      have hl := lastWith_getLast (fun q : String × ℚ => weekKeyS q.1) hne
      have hd := (hmemdict _ _).mpr hl
      apply hperm.mem_iff.mpr
      exact List.mem_map.mpr ⟨_, hd, rfl⟩
    have houtne : downsample_weekly data ≠ [] :=
      List.ne_nil_of_mem hlastmem
    have ha5 : (downsample_weekly data).getLast? = data.getLast? := by
      have hoL := List.getLast_mem houtne
      have h1 : strLe ((downsample_weekly data).getLast houtne).1
          (data.getLast hne).1 = true := by
        rcases pairwise_getLast hasc hne _ (houtmem _ hoL) with heq | hlt
        · rw [heq]
          exact strLe_refl _
        · exact ((strLt_iff _ _).mp hlt).1
      have h2 : strLe (data.getLast hne).1
          ((downsample_weekly data).getLast houtne).1 = true := by
        rcases pairwise_getLast hsortedle houtne _ hlastmem with heq | hle
        · rw [heq]
          exact strLe_refl _
        · exact hle
      have hdates : ((downsample_weekly data).getLast houtne).1 =
          (data.getLast hne).1 := strLe_antisymm h1 h2
      have heq : (downsample_weekly data).getLast houtne = data.getLast hne :=
        hinj _ (houtmem _ hoL) _ (List.getLast_mem hne) hdates
      rw [List.getLast?_eq_getLast _ houtne, List.getLast?_eq_getLast _ hne,
        heq]
    -- length bound
    have ha6 : (downsample_weekly data).length ≤
        ((data.map (fun p => weekKeyS p.1)).dedup).length := by
      have hlen1 : (downsample_weekly data).length =
          ((data.foldl (fun m p => dictInsert m (weekKeyS p.1) p) []).map
            Prod.fst).length := by
        rw [hperm.length_eq, List.length_map, List.length_map]
      have hsub : ((data.foldl
          (fun m p => dictInsert m (weekKeyS p.1) p) []).map Prod.fst).toFinset ⊆
          (data.map (fun p => weekKeyS p.1)).toFinset := by
        intro k hk
        rw [List.mem_toFinset] at hk ⊢
        obtain ⟨e, he, hek⟩ := List.mem_map.mp hk
        obtain ⟨hkey, hmem⟩ := hkeychar e he
        exact List.mem_map.mpr ⟨e.2, hmem, by rw [hkey, hek]⟩
      rw [hlen1, ← List.toFinset_card_of_nodup hnodupKeys,
        ← List.card_toFinset]
      exact Finset.card_le_card hsub
    exact ⟨ha1, ha2, ha3, ha4, ha5, ha6⟩
/-! ## A concrete 261-point daily history

261 consecutive daily points starting Monday 2023-01-02 (so ISO weeks are
the Monday-Sunday blocks), with value 5 on Sundays and on the final
(261st) day, and 0 elsewhere.  Weekly downsampling keeps exactly the
Sundays and the final day, i.e. a constant-5 history. -/

/-- The rational n/1 in reduced constructor form (kernel-evaluable). -/
def qnat (n : ℕ) : ℚ := ⟨(n : ℤ), 1, Nat.one_ne_zero, Nat.coprime_one_right _⟩

def vf (i : ℕ) : ℕ := if i % 7 = 6 ∨ i = 260 then 5 else 0

def exStart : ℤ := daysFromCivil 2023 1 2

def exHist : List (String × ℚ) :=
  (List.range 261).map
    (fun i : ℕ => (formatDate (exStart + Int.ofNat i), qnat (vf i)))

/-- Boolean strict-ascending-dates check, kernel-evaluable. -/
def chainLtB : List (String × ℚ) → Bool
  | [] => true
  | [_] => true
  | p :: q :: rest => strLt p.1 q.1 && chainLtB (q :: rest)

theorem chainLtB_pairwise :
    ∀ {l : List (String × ℚ)}, chainLtB l = true →
      l.Pairwise (fun p q => strLt p.1 q.1 = true)
  | [], _ => List.Pairwise.nil
  | [p], _ => by simp
  | p :: q :: rest, h => by
    have hh : strLt p.1 q.1 = true ∧ chainLtB (q :: rest) = true := by
      simpa [chainLtB, Bool.and_eq_true] using h
    have htail := chainLtB_pairwise hh.2
    refine List.pairwise_cons.mpr ⟨?_, htail⟩
    intro y hy
    rcases List.mem_cons.mp hy with rfl | hy
    · exact hh.1
    · exact strLt_trans hh.1 ((List.pairwise_cons.mp htail).1 y hy)

set_option maxRecDepth 100000 in
set_option maxHeartbeats 1000000 in
/-- Witness for C6: the identity on a short history, and all structural
properties on the concrete 261-point history `exHist`. -/
theorem c6_witness :
    downsample_weekly [("2024-01-01", 1)] = [("2024-01-01", 1)] ∧
    ((∀ p ∈ downsample_weekly exHist, p ∈ exHist ∧
        lastWith (fun q : String × ℚ => weekKeyS q.1) exHist (weekKeyS p.1) =
          some p) ∧
     (∀ q ∈ exHist, ∃ p ∈ downsample_weekly exHist,
        weekKeyS p.1 = weekKeyS q.1) ∧
     (downsample_weekly exHist).Pairwise
        (fun p q => weekKeyS p.1 ≠ weekKeyS q.1) ∧
     (downsample_weekly exHist).Pairwise (fun p q => strLt p.1 q.1 = true) ∧
     (downsample_weekly exHist).getLast? = exHist.getLast? ∧
     (downsample_weekly exHist).length ≤
        ((exHist.map (fun p => weekKeyS p.1)).dedup).length) :=
  ⟨(c6_downsample_spec [("2024-01-01", 1)]).1 (by decide),
   (c6_downsample_spec exHist).2 (by decide) (chainLtB_pairwise (by decide))⟩

/-! ## Claim C1 -/

theorem exHist_length : exHist.length = 261 := by
  unfold exHist
  rw [List.length_map, List.length_range]

theorem pySum_map_num :
    ∀ (l : List (String × ℚ)) (acc : ℚ),
      pySum acc (l.map (fun p => PyVal.num p.2)) =
        Except.ok (acc + (l.map Prod.snd).sum)
  | [], acc => by simp [pySum]
  | p :: ps, acc => by
    simp only [List.map_cons, pySum, List.sum_cons]
    rw [pySum_map_num ps (acc + p.2), add_assoc]

/-- On list-shaped (JSON-loaded) entries — the persisted record schema and
the backfill call site — `compute_zscore_py` never raises and agrees with
the pure `compute_zscore`. -/
theorem compute_zscore_py_lists (l : List (String × ℚ)) :
    compute_zscore_py (asLists l) = Except.ok (compute_zscore l) := by
  unfold compute_zscore_py asLists
  rw [List.length_map]
  by_cases h : l.length < 4
  · rw [if_pos h]
    unfold compute_zscore
    rw [if_pos h]
  · rw [if_neg h, List.map_map, List.map_map]
    have hext : (extractVal ∘ fun p : String × ℚ => HistEntry.pylist p.1 p.2) =
        fun p : String × ℚ => PyVal.num p.2 := rfl
    have hpair : (entryPair ∘ fun p : String × ℚ => HistEntry.pylist p.1 p.2) =
        fun p : String × ℚ => p := rfl
    have hid : (l.map fun p : String × ℚ => p) = l := List.map_id' l
    rw [hext, hpair, hid, pySum_map_num l 0]
    rfl

/-- C1: the spec claims each produced record's z-score/signal and trend are
computed from the metric's full, pre-downsample history.  In the code the
annotation loop (source lines 934-942) passes `mdata["history"]` — the
weekly-downsampled history stored at line 845, whose points are tuples for
every freshly fetched metric — and `compute_zscore`'s extraction
`h[1] if isinstance(h, list) else h` (line 673) keeps the tuples, so
`sum(values)` (line 675) raises an uncaught `TypeError`.  Hence whenever the
stored downsampled history has at least 4 points — in particular for a
daily history of more than 260 points whose downsampled form keeps at least
4 weekly points — the run aborts at the annotation step instead of
computing any z-score (the trend call at line 940 is never reached), so no
record carries the full-history z-score: the code diverges from the claim
by crashing. -/
theorem c1_fresh_annotation_type_error (full : List (String × ℚ))
    (h4 : 4 ≤ (downsample_weekly full).length) :
    annotate_zscore_fresh full = Except.error PyError.typeError := by
  unfold annotate_zscore_fresh
  obtain ⟨p, l', hpl⟩ : ∃ p l', downsample_weekly full = p :: l' := by
    cases hdw : downsample_weekly full with
    | nil => rw [hdw] at h4; exact absurd h4 (by decide)
    | cons p l' => exact ⟨p, l', rfl⟩
  rw [hpl] at h4 ⊢
  have hcons : asTuples (p :: l') =
      HistEntry.pytuple p.1 p.2 :: asTuples l' := rfl
  rw [hcons]
  have hnlt : ¬ (HistEntry.pytuple p.1 p.2 :: asTuples l').length < 4 := by
    simp only [List.length_cons, asTuples, List.length_map]
    simp only [List.length_cons] at h4
    omega
  unfold compute_zscore_py
  rw [if_neg hnlt]
  rfl

set_option maxRecDepth 100000 in
set_option maxHeartbeats 1000000 in
/-- Witness for C1 at the concrete 261-point daily history `exHist`: it has
more than 260 points, its stored downsampled history has at least 4 points,
and the fresh-metric z-score annotation raises `TypeError`. -/
theorem c1_witness :
    260 < exHist.length ∧
    annotate_zscore_fresh exHist = Except.error PyError.typeError :=
  ⟨by rw [exHist_length]; omega,
   c1_fresh_annotation_type_error exHist (by decide)⟩

end Pulse
